import Mathlib

/-!
Verification development for the well-formedness checker in
`src/compiler/rustc_typeck/src/check/wfcheck.rs`.

The checker's algorithms are embedded shallowly:

* Types, regions, const arguments and predicates become a small
  first-order syntax.  Generic-argument lists (`SubstsRef`) are encoded
  as a cons-spine inside `Ty` itself (`argsNil` / `argsCons`), with
  region and const arguments wrapped by `lifetimeArg` / `constArg`;
  this keeps the grammar a single non-nested inductive so that
  decidable equality is derivable and all recursions are structural.
* External collaborators (the trait solver, the region resolver,
  normalization, `liberate_late_bound_regions`, `needs_drop`,
  `erase_regions`, deref lookup for user types) are passed in as
  function parameters: the code under verification only observes their
  results, exactly as `wfcheck.rs` only calls them through queries.
* Hash sets and hash maps (`FxHashSet` / `FxHashMap`) are modelled by
  lists with membership-based insertion; all downstream uses in the
  source are order-insensitive except for iteration order, which the
  model fixes to insertion order.
-/

namespace Wfcheck

/-- Regions (`ty::RegionKind`), restricted to the variants this file
inspects: `ReStatic`, `ReEarlyBound`, `ReLateBound` and the liberated
`ReFree`. -/
inductive Region where
  | reStatic : Region
  | reEarlyBound (defId index name : Nat) : Region
  | reLateBound (idx : Nat) : Region
  | reFree (idx : Nat) : Region
deriving DecidableEq

/-- Const generic arguments (`ty::Const`): either a const parameter
(`ConstKind::Param`) or a concrete value. -/
inductive Konst where
  | cParam (index name : Nat) : Konst
  | cValue (v : Nat) : Konst
deriving DecidableEq

/-- Types (`ty::TyKind`), together with the spine encoding of generic
argument lists.  `projection` is an associated-type projection
`<P0 as Trait<P1..>>::Item<..>` whose `substs` spine lists all the
arguments `P0..Pm` in order; `adt` stands for any other type
constructor applied to arguments; `ref` is `&'r T`; `rawPtr` is
`*const T` / `*mut T`; `tyError` carries an error marker
(`references_error`); `infer` is an unresolved inference variable.
`argsNil` / `argsCons` build a generic-argument spine whose elements
are types, `lifetimeArg` regions, or `constArg` consts. -/
inductive Ty where
  | tyParam (index name : Nat) : Ty
  | projection (itemDefId : Nat) (substs : Ty) : Ty
  | adt (defId : Nat) (substs : Ty) : Ty
  | ref (r : Region) (t : Ty) : Ty
  | rawPtr (t : Ty) : Ty
  | tyError : Ty
  | infer (v : Nat) : Ty
  | argsNil : Ty
  | argsCons (head tail : Ty) : Ty
  | lifetimeArg (r : Region) : Ty
  | constArg (c : Konst) : Ty
deriving DecidableEq

/-- Predicates (`ty::PredicateKind`), compared structurally. -/
inductive Predicate where
  | traitPred (traitDefId : Nat) (args : Ty) : Predicate
  | typeOutlives (t : Ty) (r : Region) : Predicate
  | regionOutlives (a b : Region) : Predicate
  | constEvaluatable (defId : Nat) (args : Ty) : Predicate
deriving DecidableEq

/-- The `Reveal` mode of a parameter environment. -/
inductive RevealMode where
  | userFacing : RevealMode
  | all : RevealMode
deriving DecidableEq

/-- The constness mode of a parameter environment. -/
inductive ConstnessMode where
  | notConst : ConstnessMode
  | constIfConst : ConstnessMode
deriving DecidableEq

/-- `ty::ParamEnv`: the caller-assumed predicates plus the reveal and
constness modes. -/
structure ParamEnv where
  callerBounds : List Predicate
  reveal : RevealMode
  constness : ConstnessMode
deriving DecidableEq

/-- Source `wfcheck.rs` lines 450-469, `augment_param_env`: add a new
set of predicates to the `caller_bounds` of an existing `param_env`.
`none` and the empty set return the original environment; otherwise a
new environment is built from the chained bounds with the same reveal
and constness. -/
def augment_param_env (param_env : ParamEnv) (new_predicates : Option (List Predicate)) :
    ParamEnv :=
  match new_predicates with
  | none => param_env
  | some new_predicates =>
    if new_predicates.isEmpty then param_env
    else
      { callerBounds := param_env.callerBounds ++ new_predicates,
        reveal := param_env.reveal,
        constness := param_env.constness }

/-- Insertion into a hash set modelled as a duplicate-free list
(`FxHashSet::insert`, result discarded). -/
def hsInsert {α : Type} [DecidableEq α] (s : List α) (a : α) : List α :=
  if a ∈ s then s else s ++ [a]

/-- `FxHashSet::extend`. -/
def hsExtend {α : Type} [DecidableEq α] (s : List α) (l : List α) : List α :=
  l.foldl hsInsert s

/-- A function signature (`ty::FnSig`), with the inputs and the output
split out of `inputs_and_output`. -/
structure FnSig where
  inputs : List Ty
  output : Ty
deriving DecidableEq

/-- Source `wfcheck.rs` lines 1432-1497, `check_fn_or_method`,
restricted to its effect on the implied-bounds set: liberate the
late-bound regions of the signature, normalize every input type and
the output type independently, extend the implied-bounds set with the
input types (line 1483) and insert the output type (line 1492, under
the `FIXME(#27579)` comment).  The registered WF obligations do not
affect the implied set and are not modelled.  `liberate` stands for
`tcx.liberate_late_bound_regions` and `normalize` for
`normalize_associated_types_in_wf`; both are external queries. -/
def check_fn_or_method (liberate : Nat → FnSig → FnSig) (normalize : Ty → Ty)
    (def_id : Nat) (sig : FnSig) (implied_bounds : List Ty) : List Ty :=
  let sig := liberate def_id sig
  let sig : FnSig := ⟨sig.inputs.map normalize, normalize sig.output⟩
  let implied_bounds := hsExtend implied_bounds sig.inputs
  hsInsert implied_bounds sig.output

/-- A generic parameter kind (`ty::GenericParamDefKind`), recording
whether a type or const parameter has a default. -/
inductive GenericParamDefKind where
  | lifetime : GenericParamDefKind
  | typeParam (hasDefault : Bool) : GenericParamDefKind
  | constParam (hasDefault : Bool) : GenericParamDefKind
deriving DecidableEq

/-- `ty::GenericParamDef`. -/
structure GenericParamDef where
  defId : Nat
  index : Nat
  name : Nat
  kind : GenericParamDefKind
deriving DecidableEq

/-- `ty::Generics`: the parameters inherited from the parent
declaration (flattened, in order) followed by the declaration's own
parameters.  `params` corresponds to the `params` field (own
parameters only); `parent_count` is the length of the flattened parent
list. -/
structure Generics where
  parentParams : List GenericParamDef
  params : List GenericParamDef
deriving DecidableEq

/-- `generics.parent_count`. -/
def Generics.parentCount (g : Generics) : Nat := g.parentParams.length

/-- All parameters in global-index order. -/
def Generics.allParams (g : Generics) : List GenericParamDef :=
  g.parentParams ++ g.params

/-- Placeholder parameter used where `ty::Generics::param_at` would
panic on an out-of-range index. -/
def dfltGenericParam : GenericParamDef :=
  { defId := 0, index := 0, name := 0, kind := GenericParamDefKind.lifetime }

/-- `ty::Generics::param_at`, indexing the flattened parent+own
parameter list by global index. -/
def Generics.paramAt (g : Generics) (i : Nat) : GenericParamDef :=
  g.allParams.getD i dfltGenericParam

/-!
GAT bound inference (`check_gat_where_clauses`, lines 261-448, and
`gather_gat_bounds`, lines 471-585, with the `GATSubstCollector`
visitor, lines 656-702).
-/

/-- Source lines 680-702, the body of `GATSubstCollector::visit_ty` at
a projection node whose `item_def_id` matches the GAT: enumerate the
substs spine, collecting each non-late-bound lifetime argument and
each type argument together with its positional index. -/
def collectHere (substs : Ty) (i : Nat) : List (Region × Nat) × List (Ty × Nat) :=
  match substs with
  | .argsCons a rest =>
    let b := collectHere rest (i + 1)
    match a with
    | .lifetimeArg r => if r matches .reLateBound _ then b else ((r, i) :: b.1, b.2)
    | .constArg _ => b
    | t => (b.1, (t, i) :: b.2)
  | _ => ([], [])

/-- `GATSubstCollector::visit` (lines 668-701): traverse a type,
collecting at every projection onto `gat` and recursing through all
sub-structure (`super_visit_with`). -/
def collectTy (gat : Nat) : Ty → List (Region × Nat) × List (Ty × Nat)
  | .projection id substs =>
      let deep := collectTy gat substs
      if id = gat then
        let here := collectHere substs 0
        (here.1 ++ deep.1, here.2 ++ deep.2)
      else deep
  | .adt _ substs => collectTy gat substs
  | .ref _ u => collectTy gat u
  | .rawPtr u => collectTy gat u
  | .argsCons h t =>
      let a := collectTy gat h
      let b := collectTy gat t
      (a.1 ++ b.1, a.2 ++ b.2)
  | _ => ([], [])

/-- The collector applied to a predicate visits the types it contains
(the default `TypeVisitor` recursion; only `visit_ty` collects). -/
def collectPred (gat : Nat) : Predicate → List (Region × Nat) × List (Ty × Nat)
  | .traitPred _ args => collectTy gat args
  | .typeOutlives t _ => collectTy gat t
  | .regionOutlives _ _ => ([], [])
  | .constEvaluatable _ args => collectTy gat args

/-- The collector applied to a list of predicates. -/
def collectPreds (gat : Nat) : List Predicate → List (Region × Nat) × List (Ty × Nat)
  | [] => ([], [])
  | p :: rest =>
      let a := collectPred gat p
      let b := collectPreds gat rest
      (a.1 ++ b.1, a.2 ++ b.2)

/-- What `gather_gat_bounds` is asked to scan (`to_check`): a method's
liberated return type (line 325), or an associated type's
`explicit_item_bounds` (lines 347-350). -/
inductive GatCheckTarget where
  | fnOutput (t : Ty) : GatCheckTarget
  | typeBounds (ps : List Predicate) : GatCheckTarget
deriving DecidableEq

/-- `GATSubstCollector::visit(gat_def_id, to_check)` on either target. -/
def GatCheckTarget.collect (gat : Nat) : GatCheckTarget → List (Region × Nat) × List (Ty × Nat)
  | .fnOutput t => collectTy gat t
  | .typeBounds ps => collectPreds gat ps

/-- Spec-side notion used to state the claims: does a type contain at
least one projection onto the GAT `gat`? -/
def tyMentionsGat (gat : Nat) : Ty → Bool
  | .projection id substs => id = gat || tyMentionsGat gat substs
  | .adt _ substs => tyMentionsGat gat substs
  | .ref _ u => tyMentionsGat gat u
  | .rawPtr u => tyMentionsGat gat u
  | .argsCons h t => tyMentionsGat gat h || tyMentionsGat gat t
  | _ => false

/-- `tyMentionsGat` lifted to predicates. -/
def predMentionsGat (gat : Nat) : Predicate → Bool
  | .traitPred _ args => tyMentionsGat gat args
  | .typeOutlives t _ => tyMentionsGat gat t
  | .regionOutlives _ _ => false
  | .constEvaluatable _ args => tyMentionsGat gat args

/-- `tyMentionsGat` lifted to a check target. -/
def GatCheckTarget.mentionsGat (gat : Nat) : GatCheckTarget → Bool
  | .fnOutput t => tyMentionsGat gat t
  | .typeBounds ps => ps.any (fun p => predMentionsGat gat p)

/-- The external queries the GAT inferencer calls:
`liberate_late_bound_regions`, `tcx.param_env`, and the two outlives
oracles `ty_known_to_outlive` / `region_known_to_outlive` (which stand
behind a fresh inference context each, see the Outlives Oracle section
below). -/
structure GatOracle where
  liberate : Nat → FnSig → FnSig
  paramEnvQuery : Nat → ParamEnv
  tyOutlives : ParamEnv → List Ty → Ty → Region → Bool
  regionOutlives : ParamEnv → List Ty → Region → Region → Bool

/-- Lines 521-540: the `TypeOutlives` clause recorded for a
(type-argument, region-argument) pair, translated back into the GAT's
own parameters by positional index via `param_at`. -/
def mkTyOutlivesClause (g : Generics) (ty_idx region_idx : Nat) : Predicate :=
  let ty_param := g.paramAt ty_idx
  let region_param := g.paramAt region_idx
  Predicate.typeOutlives (Ty.tyParam ty_param.index ty_param.name)
    (Region.reEarlyBound region_param.defId region_param.index region_param.name)

/-- Lines 557-579: the `RegionOutlives` clause recorded for a
(region-argument, region-argument) pair. -/
def mkRegionOutlivesClause (g : Generics) (a_idx b_idx : Nat) : Predicate :=
  let a_param := g.paramAt a_idx
  let b_param := g.paramAt b_idx
  Predicate.regionOutlives
    (Region.reEarlyBound a_param.defId a_param.index a_param.name)
    (Region.reEarlyBound b_param.defId b_param.index b_param.name)

/-- Source lines 481-585, `gather_gat_bounds`: run the collector on
`to_check`; if it finds no region and no type argument of a projection
onto the GAT, return `none` (the item is not consulted); otherwise
return the set of outlives clauses the oracles certify, skipping
`'static` region arguments and reflexive region pairs.  The result is
a list with set semantics (the source uses an `FxHashSet`). -/
def gather_gat_bounds (O : GatOracle) (param_env : ParamEnv) (to_check : GatCheckTarget)
    (wf_tys : List Ty) (gat_def_id : Nat) (gat_generics : Generics) :
    Option (List Predicate) :=
  let rt := to_check.collect gat_def_id
  let regions := rt.1
  let types := rt.2
  if types.isEmpty && regions.isEmpty then none
  else
    some (regions.flatMap (fun ra =>
      if ra.1 = Region.reStatic then []
      else
        (types.filterMap (fun t =>
          if O.tyOutlives param_env wf_tys t.1 ra.1 then
            some (mkTyOutlivesClause gat_generics t.2 ra.2)
          else none))
        ++ (regions.filterMap (fun rb =>
          if rb.1 = Region.reStatic ∨ ra.1 = rb.1 then none
          else if O.regionOutlives param_env wf_tys ra.1 rb.1 then
            some (mkRegionOutlivesClause gat_generics ra.2 rb.2)
          else none))))

/-- `hir::AssocItemKind`, restricted to the three cases matched at
lines 311-357. -/
inductive AssocItemKind where
  | fnItem : AssocItemKind
  | typeItem : AssocItemKind
  | constItem : AssocItemKind
deriving DecidableEq

/-- A trait's associated item as the GAT inferencer sees it: its
def-id and kind, plus the data the per-kind queries return
(`tcx.fn_sig` for methods, `tcx.explicit_item_bounds` for associated
types, `tcx.generics_of` for the item itself). -/
structure TraitItemRef where
  defId : Nat
  kind : AssocItemKind
  fnSig : FnSig
  itemBounds : List Predicate
  generics : Generics
deriving DecidableEq

/-- The accumulator `required_bounds_by_item`
(`FxHashMap<DefId, FxHashSet<Predicate>>`), modelled as an association
list in insertion order. -/
abbrev GatMap : Type := List (Nat × List Predicate)

/-- `required_bounds_by_item.get(&k)`. -/
def gatMapGet : GatMap → Nat → Option (List Predicate)
  | [], _ => none
  | e :: rest, k => if e.1 = k then some e.2 else gatMapGet rest k

/-- The accumulated set for `k`, defaulting to the empty set. -/
def gatMapGetD (m : GatMap) (k : Nat) : List Predicate :=
  (gatMapGet m k).getD []

/-- Line 375, `new_required_bounds.into_iter().any(|p| required_bounds.insert(p))`:
short-circuiting insertion.  Elements already present are skipped; the
first genuinely new element is inserted and iteration stops with
`true` (Rust's `Iterator::any` short-circuits). -/
def insertAny (required_bounds : List Predicate) : List Predicate → List Predicate × Bool
  | [] => (required_bounds, false)
  | p :: rest =>
      if p ∈ required_bounds then insertAny required_bounds rest
      else (required_bounds ++ [p], true)

/-- Lines 373-380: `required_bounds_by_item.entry(k).or_default()`
followed by the short-circuiting insertion; returns the updated map
and whether the accumulated set changed. -/
def gatMapMerge : GatMap → Nat → List Predicate → GatMap × Bool
  | [], k, new =>
      let r := insertAny [] new
      ([(k, r.1)], r.2)
  | e :: rest, k, new =>
      if e.1 = k then
        let r := insertAny e.2 new
        ((k, r.1) :: rest, r.2)
      else
        let r := gatMapMerge rest k new
        (e :: r.1, r.2)

/-- Lines 311-357: the bounds with which one associated item
constrains the GAT.  Methods are scanned on their liberated return
type with the signature's inputs assumed well-formed; associated types
are scanned on their declared bounds under a parameter environment
augmented with whatever has been inferred for them so far; associated
consts contribute `none`. -/
def item_required_bounds (O : GatOracle) (m : GatMap) (gat_item : TraitItemRef)
    (item : TraitItemRef) : Option (List Predicate) :=
  let param_env := O.paramEnvQuery item.defId
  match item.kind with
  | .fnItem =>
      let sig := O.liberate item.defId item.fnSig
      gather_gat_bounds O param_env (GatCheckTarget.fnOutput sig.output) sig.inputs
        gat_item.defId gat_item.generics
  | .typeItem =>
      let param_env := augment_param_env param_env (gatMapGet m item.defId)
      gather_gat_bounds O param_env (GatCheckTarget.typeBounds item.itemBounds) []
        gat_item.defId gat_item.generics
  | .constItem => none

/-- Spec-side notion for the claims: does the data an item is scanned
on (`to_check`) contain at least one projection onto the GAT?  For a
method this is its liberated return type; for an associated type its
declared bound list; an associated const is never scanned. -/
def itemCheckTargetMentionsGat (O : GatOracle) (gat : Nat) (item : TraitItemRef) : Bool :=
  match item.kind with
  | .fnItem => tyMentionsGat gat (O.liberate item.defId item.fnSig).output
  | .typeItem => item.itemBounds.any (fun p => predMentionsGat gat p)
  | .constItem => false

/-- Lines 300-371: the inner loop over `associated_items`.  The GAT's
own item is skipped; each consulted item's bound set is intersected
into the accumulator (`retain`), starting from the uninitialized state
`none`. -/
def consult_fold (O : GatOracle) (m : GatMap) (gat_item : TraitItemRef) :
    List TraitItemRef → Option (List Predicate) → Option (List Predicate)
  | [], acc => acc
  | item :: rest, acc =>
      if item.defId = gat_item.defId then consult_fold O m gat_item rest acc
      else
        let acc :=
          match item_required_bounds O m gat_item item, acc with
          | some irb, some cur => some (cur.filter (fun b => b ∈ irb))
          | some irb, none => some irb
          | none, acc => acc
        consult_fold O m gat_item rest acc

/-- The per-pass required set for one GAT (`new_required_bounds`). -/
def new_required_bounds (O : GatOracle) (m : GatMap) (gat_item : TraitItemRef)
    (associated_items : List TraitItemRef) : Option (List Predicate) :=
  consult_fold O m gat_item associated_items none

/-- Lines 284-381: one full pass of the outer loop over the trait's
associated items.  Non-type items and associated types without own
generic parameters are skipped; for each remaining GAT the per-pass
set is computed against the map as mutated so far in this pass, then
merged.  Returns the updated map and the `should_continue` flag. -/
def gat_pass (O : GatOracle) (associated_items : List TraitItemRef) :
    GatMap → List TraitItemRef → GatMap × Bool
  | m, [] => (m, false)
  | m, gat_item :: rest =>
      if gat_item.kind ≠ AssocItemKind.typeItem then
        gat_pass O associated_items m rest
      else if gat_item.generics.params.isEmpty then
        gat_pass O associated_items m rest
      else
        match new_required_bounds O m gat_item associated_items with
        | some nrb =>
            let mr := gatMapMerge m gat_item.defId nrb
            let pr := gat_pass O associated_items mr.1 rest
            (pr.1, mr.2 || pr.2)
        | none => gat_pass O associated_items m rest

/-- `n` applications of the pass (for stating termination). -/
def gat_iter (O : GatOracle) (associated_items : List TraitItemRef) :
    Nat → GatMap → GatMap
  | 0, m => m
  | n + 1, m => gat_iter O associated_items n (gat_pass O associated_items m associated_items).1

/-- Lines 282-389: the outer `loop`, run with explicit fuel; it stops
as soon as a pass reports no change.  The termination theorem shows
the fuel `gatBound associated_items + 1` is never exhausted. -/
def gat_loop (O : GatOracle) (associated_items : List TraitItemRef) :
    Nat → GatMap → GatMap
  | 0, m => m
  | fuel + 1, m =>
      let pr := gat_pass O associated_items m associated_items
      if pr.2 then gat_loop O associated_items fuel pr.1 else pr.1

/-- The parameters `param_at` can return for a given `Generics`,
including the out-of-range placeholder. -/
def Generics.paramsWithDefault (g : Generics) : List GenericParamDef :=
  g.parentParams ++ g.params ++ [dfltGenericParam]

/-- The finite universe of candidate clauses for one GAT: every
`TypeOutlives` / `RegionOutlives` clause over its own translated
parameters.  Every clause `gather_gat_bounds` can produce lies in this
list (lines 382-385 of the source argue termination from exactly this
finiteness). -/
def predUniverse (g : Generics) : List Predicate :=
  g.paramsWithDefault.flatMap (fun p =>
    g.paramsWithDefault.flatMap (fun q =>
      [Predicate.typeOutlives (Ty.tyParam p.index p.name)
         (Region.reEarlyBound q.defId q.index q.name),
       Predicate.regionOutlives (Region.reEarlyBound p.defId p.index p.name)
         (Region.reEarlyBound q.defId q.index q.name)]))

/-- An upper bound on the total size the accumulator can reach. -/
def gatBound (associated_items : List TraitItemRef) : Nat :=
  (associated_items.map (fun it => (predUniverse it.generics).length)).sum

/-- The total number of accumulated clauses in the map. -/
def totalCard (m : GatMap) : Nat :=
  (m.map (fun e => e.2.length)).sum

/-- The keys of the accumulator map. -/
def mapKeys (m : GatMap) : List Nat :=
  m.map (fun e => e.1)

/-- A deterministic total-order key for predicates, standing for the
lexicographic order of their rendered strings (`clause.to_string()`),
which the source sorts by at line 412.  Only the clause shapes the
inferencer produces need distinct keys. -/
def regionKey : Region → Nat
  | .reStatic => Nat.pair 0 0
  | .reEarlyBound d i n => Nat.pair 1 (Nat.pair d (Nat.pair i n))
  | .reLateBound i => Nat.pair 2 i
  | .reFree i => Nat.pair 3 i

/-- Key of the type operand of a clause (only parameter types occur in
the clauses the inferencer builds). -/
def tyHeadKey : Ty → Nat
  | .tyParam i n => Nat.pair 0 (Nat.pair i n)
  | _ => 1

/-- The sort key for a clause. -/
def predKey : Predicate → Nat
  | .typeOutlives t r => Nat.pair 0 (Nat.pair (tyHeadKey t) (regionKey r))
  | .regionOutlives a b => Nat.pair 1 (Nat.pair (regionKey a) (regionKey b))
  | .traitPred d _ => Nat.pair 2 d
  | .constEvaluatable d _ => Nat.pair 3 d

/-- The order the missing-bound list is sorted by. -/
def predStringLE (a b : Predicate) : Prop := predKey a ≤ predKey b

instance : DecidableRel predStringLE := fun a b => Nat.decLe (predKey a) (predKey b)

instance : IsTotal Predicate predStringLE := ⟨fun a b => Nat.le_total (predKey a) (predKey b)⟩

instance : IsTrans Predicate predStringLE :=
  ⟨fun _ _ _ h1 h2 => Nat.le_trans h1 h2⟩

/-- `rustc_errors::Applicability` of a suggested edit. -/
inductive Applicability where
  | machineApplicable : Applicability
  | maybeIncorrect : Applicability
  | hasPlaceholders : Applicability
  | unspecified : Applicability
deriving DecidableEq

/-- The structured diagnostic emitted per GAT with missing bounds
(lines 414-445): the GAT's id, the sorted list of missing bounds named
both in the message and in the suggested where-clause insertion, and
the suggestion's applicability. -/
structure GatDiag where
  gatId : Nat
  missing : List Predicate
  suggestion : Applicability
deriving DecidableEq

/-- Lines 397-407: is an accumulated clause unprovable from the GAT's
own parameter environment with an empty well-formed-types set?  Other
predicate kinds hit `bug!` in the source; the model maps them to
`true`, and a lemma shows they never occur in a reachable map. -/
def unprovableClause (O : GatOracle) (gat_def_id : Nat) (clause : Predicate) : Bool :=
  let param_env := O.paramEnvQuery gat_def_id
  match clause with
  | .regionOutlives a b => !(O.regionOutlives param_env [] a b)
  | .typeOutlives t r => !(O.tyOutlives param_env [] t r)
  | _ => true

/-- Lines 391-447: after the fixpoint, re-verify every accumulated
clause against the GAT's own environment, sort the unprovable ones for
determinism, and emit one diagnostic per GAT that has any, carrying a
machine-applicable where-clause suggestion. -/
def check_gat_missing_bound_diags (O : GatOracle) (m : GatMap) : List GatDiag :=
  m.filterMap (fun e =>
    let unsatisfied := e.2.filter (fun c => unprovableClause O e.1 c)
    let unsatisfied := List.insertionSort predStringLE unsatisfied
    if unsatisfied.isEmpty then none
    else some { gatId := e.1, missing := unsatisfied,
                suggestion := Applicability.machineApplicable })

/-- Lines 273-448, `check_gat_where_clauses` end to end: run the
fixpoint loop from the empty accumulator (with fuel that the
termination theorem shows is never exhausted), then report. -/
def check_gat_where_clauses (O : GatOracle) (associated_items : List TraitItemRef) :
    List GatDiag :=
  check_gat_missing_bound_diags O
    (gat_loop O associated_items (gatBound associated_items + 1) [])

/-!
Outlives Oracle (`resolve_regions_with_wf_tys`, lines 625-654;
`ty_known_to_outlive`, lines 589-602; `region_known_to_outlive`,
lines 606-620).
-/

/-- A region constraint registered in an inference context:
`push_sub_region_constraint(origin, sub, sup)` or the constraint
`TypeOutlives::type_must_outlive` registers. -/
inductive RegionConstraint where
  | subRegion (sub sup : Region) : RegionConstraint
  | typeMustOutlive (t : Ty) (r : Region) : RegionConstraint
deriving DecidableEq

/-- `OutlivesEnvironment`: the parameter environment plus the
region-bound pairs derived from the well-formed types by
`add_implied_bounds`. -/
structure OutlivesEnvironment where
  paramEnv : ParamEnv
  regionBoundPairs : List (Region × Ty)
deriving DecidableEq

/-- The inference context's accumulated region constraints.  A fresh
context has none. -/
structure InferCtxt where
  regionConstraints : List RegionConstraint
deriving DecidableEq

/-- The external region machinery: `add_implied_bounds` (structural
decomposition of the well-formed types) and `resolve_regions` (the
region-constraint resolver, returning its error list). -/
structure RegionSolver where
  addImpliedBounds : ParamEnv → List Ty → List (Region × Ty)
  resolveRegions : OutlivesEnvironment → List RegionConstraint → List Nat

/-- Source lines 625-654, `resolve_regions_with_wf_tys`: construct a
fresh `InferCtxt` (the source comments that a new one is needed per
call because constraints get added and solved there), seed the
outlives environment from the parameter environment and the
well-formed types, only then let `add_constraints` push the candidate
constraints, run the resolver, and report provable iff the error list
is empty. -/
def resolve_regions_with_wf_tys (S : RegionSolver) (param_env : ParamEnv) (wf_tys : List Ty)
    (add_constraints : List (Region × Ty) → List RegionConstraint) : Bool :=
  let infcx : InferCtxt := { regionConstraints := [] }
  let outlives_environment : OutlivesEnvironment :=
    { paramEnv := param_env,
      regionBoundPairs := S.addImpliedBounds param_env wf_tys }
  let region_bound_pairs := outlives_environment.regionBoundPairs
  let infcx : InferCtxt :=
    { regionConstraints := infcx.regionConstraints ++ add_constraints region_bound_pairs }
  let errors := S.resolveRegions outlives_environment infcx.regionConstraints
  errors.isEmpty

/-- Lines 589-602: `ty_known_to_outlive` pushes the single constraint
that `ty` must outlive `region`. -/
def ty_known_to_outlive (S : RegionSolver) (param_env : ParamEnv) (wf_tys : List Ty)
    (ty : Ty) (region : Region) : Bool :=
  resolve_regions_with_wf_tys S param_env wf_tys
    (fun _ => [RegionConstraint.typeMustOutlive ty region])

/-- Lines 606-620: `region_known_to_outlive` pushes the single
sub-region constraint `region_b <= region_a`. -/
def region_known_to_outlive (S : RegionSolver) (param_env : ParamEnv) (wf_tys : List Ty)
    (region_a region_b : Region) : Bool :=
  resolve_regions_with_wf_tys S param_env wf_tys
    (fun _ => [RegionConstraint.subRegion region_b region_a])

/-- One oracle query with its full argument set. -/
inductive OutlivesQuery where
  | tyQuery (param_env : ParamEnv) (wf_tys : List Ty) (t : Ty) (r : Region) : OutlivesQuery
  | regionQuery (param_env : ParamEnv) (wf_tys : List Ty) (a b : Region) : OutlivesQuery
deriving DecidableEq

/-- Evaluate one query. -/
def eval_outlives_query (S : RegionSolver) : OutlivesQuery → Bool
  | .tyQuery pe wf t r => ty_known_to_outlive S pe wf t r
  | .regionQuery pe wf a b => region_known_to_outlive S pe wf a b

/-- The inference context a query leaves behind when its scope ends
(the context holds only the candidate constraint; it is then
discarded). -/
def query_final_ctxt : OutlivesQuery → InferCtxt
  | .tyQuery _ _ t r => { regionConstraints := [RegionConstraint.typeMustOutlive t r] }
  | .regionQuery _ _ a b => { regionConstraints := [RegionConstraint.subRegion b a] }

/-- A sequence of oracle queries threaded through an explicit solver
session.  Mirroring `tcx.infer_ctxt().enter(..)` at line 638, every
query ignores the incoming context and evaluates in a fresh one; the
context it produced is passed on only to be discarded by the next
query. -/
def run_outlives_queries (S : RegionSolver) : List OutlivesQuery → InferCtxt → List Bool
  | [], _ => []
  | q :: rest, _ =>
      eval_outlives_query S q :: run_outlives_queries S rest (query_final_ctxt q)

/-!
Sized obligations on type definitions (`check_type_defn`,
lines 974-1062, dispatched from `check_item_well_formed`,
lines 173-187).
-/

/-- The three ADT kinds dispatched at lines 173-187. -/
inductive AdtKindM where
  | structKind : AdtKindM
  | unionKind : AdtKindM
  | enumKind : AdtKindM
deriving DecidableEq

/-- `AdtField` (lines 1900-1904). -/
structure AdtFieldM where
  ty : Ty
  defId : Nat
deriving DecidableEq

/-- `AdtVariant` (lines 1891-1898). -/
structure AdtVariantM where
  fields : List AdtFieldM
  explicitDiscr : Option Nat
deriving DecidableEq

/-- `ty.needs_infer()`: does the type contain an inference variable? -/
def tyNeedsInfer : Ty → Bool
  | .infer _ => true
  | .projection _ s => tyNeedsInfer s
  | .adt _ s => tyNeedsInfer s
  | .ref _ t => tyNeedsInfer t
  | .rawPtr t => tyNeedsInfer t
  | .argsCons h t => tyNeedsInfer h || tyNeedsInfer t
  | _ => false

/-- `ty.references_error()`: does the type contain an error marker? -/
def tyReferencesError : Ty → Bool
  | .tyError => true
  | .projection _ s => tyReferencesError s
  | .adt _ s => tyReferencesError s
  | .ref _ t => tyReferencesError t
  | .rawPtr t => tyReferencesError t
  | .argsCons h t => tyReferencesError h || tyReferencesError t
  | _ => false

/-- The `all_sized` argument `check_type_defn` receives at
lines 174-184: `false` for a struct, `true` for a union or an enum. -/
def check_item_all_sized : AdtKindM → Bool
  | .structKind => false
  | .unionKind => true
  | .enumKind => true

/-- Source lines 986-1025, the per-variant `Sized`-obligation
selection in `check_type_defn`: compute `needs_drop_copy` lazily from
the packed flag and the region-erased last field (an unresolved
inference type counts as needing drop), recompute `all_sized`, and
register a `Sized` bound on every field except the trailing
`unsized_len` ones.  `needs_drop` and `erase_regions` are external
queries. -/
def variant_sized_fields (needs_drop : Ty → ParamEnv → Bool) (erase_regions : Ty → Ty)
    (param_env : ParamEnv) (packed : Bool) (all_sized : Bool)
    (variant : AdtVariantM) : List AdtFieldM :=
  let needs_drop_copy : Bool :=
    packed &&
      (match variant.fields.getLast? with
       | none => false
       | some f =>
         let t := erase_regions f.ty
         if tyNeedsInfer t then true else needs_drop t param_env)
  let all_sized := all_sized || variant.fields.isEmpty || needs_drop_copy
  let unsized_len := if all_sized then 0 else 1
  variant.fields.take (variant.fields.length - unsized_len)

/-- The fields of every variant that receive a `Sized` obligation,
tagged with their variant's index, for a definition of the given ADT
kind (combining the dispatch at lines 173-187 with the loop at
lines 986-1025). -/
def check_type_defn_sized_fields (needs_drop : Ty → ParamEnv → Bool) (erase_regions : Ty → Ty)
    (param_env : ParamEnv) (packed : Bool) (kind : AdtKindM)
    (variants : List AdtVariantM) : List (Nat × AdtFieldM) :=
  variants.enum.flatMap (fun ve =>
    (variant_sized_fields needs_drop erase_regions param_env packed
        (check_item_all_sized kind) ve.2).map (fun f => (ve.1, f)))

/-- The region-erased type of a variant's last field (only meaningful
when the variant has fields, matching the source's lazy `unwrap`). -/
def lastFieldTy (variant : AdtVariantM) : Ty :=
  match variant.fields.getLast? with
  | some f => f.ty
  | none => Ty.tyError

/-!
Defaulted-substitution checking (`check_where_clauses`,
lines 1235-1429; the claim concerns the `default_obligations`
computation at lines 1343-1406).
-/

/-- The parameter indices mentioned by a type: `ty::Param` indices
from `visit_ty` and `ConstKind::Param` indices from `visit_const`
(the `CountParams` visitor, lines 1347-1371). -/
def tyParamIndices : Ty → List Nat
  | .tyParam i _ => [i]
  | .projection _ s => tyParamIndices s
  | .adt _ s => tyParamIndices s
  | .ref _ t => tyParamIndices t
  | .rawPtr t => tyParamIndices t
  | .argsCons h t => tyParamIndices h ++ tyParamIndices t
  | .constArg (.cParam i _) => [i]
  | _ => []

/-- Does a type contain any region?  (`CountParams::visit_region`
breaks on every region, line 1361-1363.) -/
def tyHasRegion : Ty → Bool
  | .ref _ _ => true
  | .lifetimeArg _ => true
  | .projection _ s => tyHasRegion s
  | .adt _ s => tyHasRegion s
  | .rawPtr t => tyHasRegion t
  | .argsCons h t => tyHasRegion h || tyHasRegion t
  | _ => false

/-- Does a type contain an early-bound region parameter?  (Part of
`needs_subst`.) -/
def tyHasReParam : Ty → Bool
  | .ref r t => (r matches .reEarlyBound _ _ _) || tyHasReParam t
  | .lifetimeArg r => (r matches .reEarlyBound _ _ _)
  | .projection _ s => tyHasReParam s
  | .adt _ s => tyHasReParam s
  | .rawPtr t => tyHasReParam t
  | .argsCons h t => tyHasReParam h || tyHasReParam t
  | _ => false

/-- `ty.needs_subst()`: the type mentions a type, const or region
parameter. -/
def tyNeedsSubst (t : Ty) : Bool :=
  !(tyParamIndices t).isEmpty || tyHasReParam t

/-- `ct.needs_subst()` for a const argument. -/
def konstNeedsSubst : Konst → Bool
  | .cParam _ _ => true
  | .cValue _ => false

/-- `CountParams` on a predicate: the indices of the mentioned
parameters (below they are deduplicated, as the source collects them
into an `FxHashSet<u32>`). -/
def predParamIndices : Predicate → List Nat
  | .traitPred _ args => tyParamIndices args
  | .typeOutlives t _ => tyParamIndices t
  | .regionOutlives _ _ => []
  | .constEvaluatable _ args => tyParamIndices args

/-- Whether visiting the predicate hits a region (`has_region`,
line 1373).  The two outlives forms carry a region operand directly. -/
def predHasRegion : Predicate → Bool
  | .traitPred _ args => tyHasRegion args
  | .typeOutlives _ _ => true
  | .regionOutlives _ _ => true
  | .constEvaluatable _ args => tyHasRegion args

/-- `substituted_pred.has_param_types_or_consts()`. -/
def predHasParamTypesOrConsts (p : Predicate) : Bool :=
  !(predParamIndices p).isEmpty

/-- `tcx.mk_param_from_def(param)`: the identity generic argument for
a parameter. -/
def mk_param_from_def (param : GenericParamDef) : Ty :=
  match param.kind with
  | .lifetime => Ty.lifetimeArg (Region.reEarlyBound param.defId param.index param.name)
  | .typeParam _ => Ty.tyParam param.index param.name
  | .constParam _ => Ty.constArg (Konst.cParam param.index param.name)

/-- Lines 1246-1252, `is_our_default`: the parameter has a default
introduced at this declaration (its index is not inherited from the
parent). -/
def is_our_default (g : Generics) (param : GenericParamDef) : Bool :=
  match param.kind with
  | .typeParam hasDefault => hasDefault && decide (param.index ≥ g.parentCount)
  | .constParam hasDefault => hasDefault && decide (param.index ≥ g.parentCount)
  | .lifetime => false

/-- Lines 1306-1340: the defaulted substitution built by
`InternalSubsts::for_item`.  Regions stay identity; a type or const
parameter is replaced by its default when the default is ours and not
dependent (`needs_subst`), and stays identity otherwise.  `type_of`
and `const_param_default` are the external default queries. -/
def default_substs (type_of : Nat → Ty) (const_param_default : Nat → Konst)
    (g : Generics) : List Ty :=
  g.allParams.map (fun param =>
    match param.kind with
    | .lifetime => mk_param_from_def param
    | .typeParam _ =>
        if is_our_default g param then
          let default_ty := type_of param.defId
          if !(tyNeedsSubst default_ty) then default_ty else mk_param_from_def param
        else mk_param_from_def param
    | .constParam _ =>
        if is_our_default g param then
          let default_ct := const_param_default param.defId
          if !(konstNeedsSubst default_ct) then Ty.constArg default_ct
          else mk_param_from_def param
        else mk_param_from_def param)

/-- Substitution on a region: an early-bound region parameter is
replaced by the region argument at its index. -/
def substRegion (s : List Ty) (r : Region) : Region :=
  match r with
  | .reEarlyBound d i n =>
      match s.getD i (Ty.lifetimeArg (Region.reEarlyBound d i n)) with
      | .lifetimeArg r2 => r2
      | _ => Region.reEarlyBound d i n
  | r => r

/-- Substitution on a const argument. -/
def substKonst (s : List Ty) (c : Konst) : Konst :=
  match c with
  | .cParam i n =>
      match s.getD i (Ty.constArg (Konst.cParam i n)) with
      | .constArg c2 => c2
      | _ => Konst.cParam i n
  | c => c

/-- `EarlyBinder(_).subst` on a type: parameters are replaced by the
argument at their index (a kind mismatch keeps the parameter; the
substitutions the checker builds are kind-correct). -/
def substTy (s : List Ty) : Ty → Ty
  | .tyParam i n =>
      match s.getD i (Ty.tyParam i n) with
      | .lifetimeArg _ => Ty.tyParam i n
      | .constArg _ => Ty.tyParam i n
      | u => u
  | .projection id args => Ty.projection id (substTy s args)
  | .adt d args => Ty.adt d (substTy s args)
  | .ref r t => Ty.ref (substRegion s r) (substTy s t)
  | .rawPtr t => Ty.rawPtr (substTy s t)
  | .argsCons h t => Ty.argsCons (substTy s h) (substTy s t)
  | .lifetimeArg r => Ty.lifetimeArg (substRegion s r)
  | .constArg c => Ty.constArg (substKonst s c)
  | t => t

/-- `EarlyBinder(pred).subst(tcx, substs)` (line 1374). -/
def substPred (s : List Ty) : Predicate → Predicate
  | .traitPred d args => Predicate.traitPred d (substTy s args)
  | .typeOutlives t r => Predicate.typeOutlives (substTy s t) (substRegion s r)
  | .regionOutlives a b => Predicate.regionOutlives (substRegion s a) (substRegion s b)
  | .constEvaluatable d args => Predicate.constEvaluatable d (substTy s args)

/-- Source lines 1343-1406, the `default_obligations` computation of
`check_where_clauses`: for each declared predicate, count the distinct
mentioned parameters and detect regions; substitute the defaults; skip
the result if it still has type or const parameters, if more than one
parameter was mentioned, or if a region was; skip it if it is already
present verbatim among the declared predicates; otherwise queue it. -/
def default_obligations (type_of : Nat → Ty) (const_param_default : Nat → Konst)
    (g : Generics) (predicates : List Predicate) : List Predicate :=
  let substs := default_substs type_of const_param_default g
  predicates.filterMap (fun pred =>
    let param_count := (predParamIndices pred).dedup
    let has_region := predHasRegion pred
    let substituted_pred := substPred substs pred
    if predHasParamTypesOrConsts substituted_pred || param_count.length > 1 || has_region then
      none
    else if substituted_pred ∈ predicates then none
    else some substituted_pred)

/-!
Method receiver validation (`check_method_receiver`, lines 1503-1556,
and `receiver_is_valid`, lines 1579-1658).
-/

/-- One dereference step of the autoderef chain: references always
step; raw pointers step only when raw-pointer derefs are included
(lines 1600-1603); other types step through the external `Deref` impl
lookup `adt_deref`. -/
def autoderef_step (adt_deref : Ty → Option Ty) (include_raw : Bool) : Ty → Option Ty
  | .ref _ t => some t
  | .rawPtr t => if include_raw then some t else none
  | t => adt_deref t

/-- The successive dereference results of the autoderef chain
(excluding the start type, which the source skips at line 1606), cut
off at the recursion limit `fuel`. -/
def autoderef_chain (adt_deref : Ty → Option Ty) (include_raw : Bool) :
    Nat → Ty → List Ty
  | 0, _ => []
  | fuel + 1, t =>
      match autoderef_step adt_deref include_raw t with
      | some u => u :: autoderef_chain adt_deref include_raw fuel u
      | none => []

/-- Lines 1611-1648, the body of the `loop`: walk the chain; on a type
equal to `self_ty`, stop successfully; in strict mode (no
`arbitrary_self_types`), fail as soon as an intermediate step does not
implement `Receiver`; if the chain is exhausted, the caller falls back
to the error-suppression check.  `can_eq` is the inference-context
equality test and `receiver_impl` the `Receiver`-trait query
(`receiver_is_implemented`). -/
def receiver_chain_loop (can_eq : Ty → Ty → Bool) (receiver_impl : Ty → Bool)
    (arbitrary_self_types_enabled : Bool) (self_ty : Ty) : List Ty → Option Bool
  | [] => none
  | t :: rest =>
      if can_eq self_ty t then some true
      else if !arbitrary_self_types_enabled && !receiver_impl t then some false
      else receiver_chain_loop can_eq receiver_impl arbitrary_self_types_enabled self_ty rest

/-- Source lines 1579-1658, `receiver_is_valid`: `self: Self` is
always valid; otherwise deref (through raw pointers only in relaxed
mode) until `self_ty` is reached, requiring in strict mode that every
intermediate type and finally the receiver type itself implement
`Receiver`; if the chain never reaches `self_ty`, the receiver is
valid only if it already references an error (line 1646). -/
def receiver_is_valid (can_eq : Ty → Ty → Bool) (receiver_impl : Ty → Bool)
    (adt_deref : Ty → Option Ty) (fuel : Nat) (receiver_ty self_ty : Ty)
    (arbitrary_self_types_enabled : Bool) : Bool :=
  if can_eq self_ty receiver_ty then true
  else
    match receiver_chain_loop can_eq receiver_impl arbitrary_self_types_enabled self_ty
        (autoderef_chain adt_deref arbitrary_self_types_enabled fuel receiver_ty) with
    | none => tyReferencesError receiver_ty
    | some false => false
    | some true =>
        if !arbitrary_self_types_enabled && !receiver_impl receiver_ty then false else true

/-- The diagnostic outcome of `check_method_receiver`. -/
inductive ReceiverCheckResult where
  | ok : ReceiverCheckResult
  | e0307 : ReceiverCheckResult
  | featureErrArbitrarySelfTypes : ReceiverCheckResult
deriving DecidableEq

/-- Source lines 1503-1556, `check_method_receiver`: nothing to check
without a `self` parameter; with the `arbitrary_self_types` feature
on, a relaxed-mode failure is the plain `E0307`; with the feature off,
a strict-mode failure is re-tried in relaxed mode and, if that would
have succeeded, the feature-suggestion diagnostic naming
`arbitrary_self_types` is emitted instead of `E0307`.  (Normalization
of the signature is folded into the inputs.) -/
def check_method_receiver (can_eq : Ty → Ty → Bool) (receiver_impl : Ty → Bool)
    (adt_deref : Ty → Option Ty) (fuel : Nat)
    (arbitrary_self_types_feature : Bool) (fn_has_self_parameter : Bool)
    (receiver_ty self_ty : Ty) : ReceiverCheckResult :=
  if !fn_has_self_parameter then ReceiverCheckResult.ok
  else if arbitrary_self_types_feature then
    if !(receiver_is_valid can_eq receiver_impl adt_deref fuel receiver_ty self_ty true) then
      ReceiverCheckResult.e0307
    else ReceiverCheckResult.ok
  else
    if !(receiver_is_valid can_eq receiver_impl adt_deref fuel receiver_ty self_ty false) then
      if receiver_is_valid can_eq receiver_impl adt_deref fuel receiver_ty self_ty true then
        ReceiverCheckResult.featureErrArbitrarySelfTypes
      else ReceiverCheckResult.e0307
    else ReceiverCheckResult.ok

end Wfcheck

namespace Wfcheck

/-!
Helper lemmas.
-/

/-- Membership after a hashement-set insertion. -/
theorem mem_hsInsert {α : Type} [DecidableEq α] (s : List α) (b a : α) :
    a ∈ hsInsert s b ↔ a ∈ s ∨ a = b := by
  unfold hsInsert
  split
  · rename_i h
    constructor
    · exact fun h2 => Or.inl h2
    · rintro (h2 | rfl)
      · exact h2
      · exact h
  · simp

/-- Membership after a hash-set extension. -/
theorem mem_hsExtend {α : Type} [DecidableEq α] (l : List α) (s : List α) (a : α) :
    a ∈ hsExtend s l ↔ a ∈ s ∨ a ∈ l := by
  induction l generalizing s with
  | nil => simp [hsExtend]
  | cons b rest ih =>
      show a ∈ hsExtend (hsInsert s b) rest ↔ _
      rw [ih, mem_hsInsert]
      simp only [List.mem_cons]
      tauto

/-- C1 counterexample: for the identity liberation and normalization,
the one-input signature `fn(p0) -> p1` produces an implied-bounds set
that contains the return type `p1`, although `p1` is not among the
input types — the set is not "exactly the input parameter types". -/
theorem check_fn_or_method_output_in_implied_bounds :
    Ty.tyParam 1 1 ∈
        check_fn_or_method (fun _ sig => sig) (fun t => t) 0
          ⟨[Ty.tyParam 0 0], Ty.tyParam 1 1⟩ ([] : List Ty) ∧
      Ty.tyParam 1 1 ∉ [Ty.tyParam 0 0] := by
  decide

/-- C1 (amended): the implied-bounds set `check_fn_or_method` passes
onward consists of the incoming set, the liberated and normalized
input types, and additionally the liberated and normalized return
type (inserted at line 1492 under `FIXME(#27579)`). -/
theorem check_fn_or_method_implied_bounds (liberate : Nat → FnSig → FnSig)
    (normalize : Ty → Ty) (def_id : Nat) (sig : FnSig) (implied_bounds : List Ty) (x : Ty) :
    x ∈ check_fn_or_method liberate normalize def_id sig implied_bounds ↔
      x ∈ implied_bounds ∨ x ∈ (liberate def_id sig).inputs.map normalize ∨
        x = normalize (liberate def_id sig).output := by
  unfold check_fn_or_method
  rw [mem_hsInsert, mem_hsExtend]
  simp [or_assoc]

/-- C9: augmenting a parameter environment with an absent or empty
predicate set returns the original environment itself; augmenting with
any predicate list yields caller bounds equal to the old bounds
followed by the new predicates, with the reveal and constness modes
unchanged (and, the model being pure, the original value is never
mutated). -/
theorem augment_param_env_spec :
    (∀ pe : ParamEnv, augment_param_env pe none = pe) ∧
    (∀ pe : ParamEnv, augment_param_env pe (some []) = pe) ∧
    (∀ (pe : ParamEnv) (new_predicates : List Predicate),
      (augment_param_env pe (some new_predicates)).callerBounds =
          pe.callerBounds ++ new_predicates ∧
        (augment_param_env pe (some new_predicates)).reveal = pe.reveal ∧
        (augment_param_env pe (some new_predicates)).constness = pe.constness) := by
  refine ⟨fun pe => rfl, fun pe => rfl, fun pe new_predicates => ?_⟩
  unfold augment_param_env
  cases new_predicates with
  | nil => simp
  | cons p rest => simp

/-- C5: oracle queries are independent of any prior solver state (each
call stands up a fresh inference context), a run of queries is just
the pointwise evaluation of each query, and each oracle returns `true`
iff the region resolver—given the outlives environment seeded from the
parameter environment and the well-formed types only, and exactly the
single candidate constraint—reports an empty error list. -/
theorem outlives_oracle_independent :
    (∀ (S : RegionSolver) (qs : List OutlivesQuery) (s1 s2 : InferCtxt),
        run_outlives_queries S qs s1 = run_outlives_queries S qs s2) ∧
    (∀ (S : RegionSolver) (qs : List OutlivesQuery) (s : InferCtxt),
        run_outlives_queries S qs s = qs.map (eval_outlives_query S)) ∧
    (∀ (S : RegionSolver) (pe : ParamEnv) (wf : List Ty) (t : Ty) (r : Region),
        ty_known_to_outlive S pe wf t r =
          (S.resolveRegions ⟨pe, S.addImpliedBounds pe wf⟩
            [RegionConstraint.typeMustOutlive t r]).isEmpty) ∧
    (∀ (S : RegionSolver) (pe : ParamEnv) (wf : List Ty) (a b : Region),
        region_known_to_outlive S pe wf a b =
          (S.resolveRegions ⟨pe, S.addImpliedBounds pe wf⟩
            [RegionConstraint.subRegion b a]).isEmpty) := by
  have hmap : ∀ (S : RegionSolver) (qs : List OutlivesQuery) (s : InferCtxt),
      run_outlives_queries S qs s = qs.map (eval_outlives_query S) := by
    intro S qs
    induction qs with
    | nil => intro s; rfl
    | cons q rest ih => intro s; simp [run_outlives_queries, ih]
  exact ⟨fun S qs s1 s2 => (hmap S qs s1).trans (hmap S qs s2).symm, hmap,
    fun S pe wf t r => rfl, fun S pe wf a b => rfl⟩

/-- The filtered consult step ignores items whose required bounds are
`none`; in particular associated consts never change the accumulator. -/
theorem consult_fold_filter_const (O : GatOracle) (m : GatMap) (gat_item : TraitItemRef) :
    ∀ (items : List TraitItemRef) (acc : Option (List Predicate)),
      consult_fold O m gat_item items acc =
        consult_fold O m gat_item
          (items.filter (fun it => decide (it.kind ≠ AssocItemKind.constItem))) acc := by
  intro items
  induction items with
  | nil => intro acc; rfl
  | cons item rest ih =>
      intro acc
      by_cases hk : item.kind = AssocItemKind.constItem
      · have hirb : item_required_bounds O m gat_item item = none := by
          simp [item_required_bounds, hk]
        by_cases hid : item.defId = gat_item.defId
        · simp [consult_fold, hid, hk, ih]
        · simp [consult_fold, hid, hk, hirb, ih]
      · by_cases hid : item.defId = gat_item.defId
        · simp [consult_fold, hid, hk, ih]
        · have hd : decide (item.kind ≠ AssocItemKind.constItem) = true := by
            simp [hk]
          simp only [consult_fold, hid, if_false, List.filter_cons, hd]
          simp [consult_fold, hid, ih]

/-- C10: an associated const is assigned no fact set at all (`none`,
line 356) for every GAT and every accumulator state, and the per-pass
required set of any GAT is therefore unchanged when all associated
consts are removed from the trait's item list — consts can never
shrink the intersection nor remove an inferred bound. -/
theorem assoc_const_items_never_consulted :
    (∀ (O : GatOracle) (m : GatMap) (gat_item item : TraitItemRef),
        item.kind = AssocItemKind.constItem →
          item_required_bounds O m gat_item item = none) ∧
    (∀ (O : GatOracle) (m : GatMap) (gat_item : TraitItemRef)
        (items : List TraitItemRef),
        new_required_bounds O m gat_item items =
          new_required_bounds O m gat_item
            (items.filter (fun it => decide (it.kind ≠ AssocItemKind.constItem)))) := by
  constructor
  · intro O m gat_item item hk
    simp [item_required_bounds, hk]
  · intro O m gat_item items
    exact consult_fold_filter_const O m gat_item items none

/-- C10 witness: a concrete associated const in a two-item trait gets
no fact set. -/
theorem assoc_const_items_never_consulted_witness :
    item_required_bounds
        ⟨fun _ sig => sig, fun _ => ⟨[], RevealMode.userFacing, ConstnessMode.notConst⟩,
          fun _ _ _ _ => true, fun _ _ _ _ => true⟩
        []
        ⟨1, AssocItemKind.typeItem, ⟨[], Ty.tyError⟩, [],
          ⟨[], [⟨11, 0, 5, GenericParamDefKind.lifetime⟩]⟩⟩
        ⟨2, AssocItemKind.constItem, ⟨[], Ty.tyError⟩, [], ⟨[], []⟩⟩ = none :=
  assoc_const_items_never_consulted.1 _ _ _ _ (by decide)

/-- Substitution is the identity on a type that mentions no type or
const parameter and no region. -/
theorem substTy_id_of_closed (s : List Ty) :
    ∀ t : Ty, tyParamIndices t = [] → tyHasRegion t = false → substTy s t = t := by
  intro t
  induction t with
  | tyParam i n => intro h1 _; simp [tyParamIndices] at h1
  | projection id args ih =>
      intro h1 h2
      simp only [tyParamIndices] at h1
      simp only [tyHasRegion] at h2
      simp [substTy, ih h1 h2]
  | adt d args ih =>
      intro h1 h2
      simp only [tyParamIndices] at h1
      simp only [tyHasRegion] at h2
      simp [substTy, ih h1 h2]
  | ref r t ih => intro _ h2; simp [tyHasRegion] at h2
  | rawPtr t ih =>
      intro h1 h2
      simp only [tyParamIndices] at h1
      simp only [tyHasRegion] at h2
      simp [substTy, ih h1 h2]
  | tyError => intro _ _; rfl
  | infer v => intro _ _; rfl
  | argsNil => intro _ _; rfl
  | argsCons h t ih1 ih2 =>
      intro h1 h2
      simp only [tyParamIndices, List.append_eq_nil] at h1
      simp only [tyHasRegion, Bool.or_eq_false_iff] at h2
      simp [substTy, ih1 h1.1 h2.1, ih2 h1.2 h2.2]
  | lifetimeArg r => intro _ h2; simp [tyHasRegion] at h2
  | constArg c =>
      intro h1 _
      cases c with
      | cParam i n => simp [tyParamIndices] at h1
      | cValue v => rfl

/-- Substitution is the identity on a predicate that mentions no
parameter and no region. -/
theorem substPred_id_of_closed (s : List Ty) (p : Predicate)
    (h1 : predParamIndices p = []) (h2 : predHasRegion p = false) : substPred s p = p := by
  cases p with
  | traitPred d args =>
      simp only [predParamIndices] at h1
      simp only [predHasRegion] at h2
      simp [substPred, substTy_id_of_closed s args h1 h2]
  | typeOutlives t r => simp [predHasRegion] at h2
  | regionOutlives a b => simp [predHasRegion] at h2
  | constEvaluatable d args =>
      simp only [predParamIndices] at h1
      simp only [predHasRegion] at h2
      simp [substPred, substTy_id_of_closed s args h1 h2]

/-- C7: a declared predicate gives rise to a queued obligation under
the default substitution iff it mentions exactly one distinct generic
parameter, mentions no region, becomes fully concrete (no remaining
type or const parameters) after substituting the defaults, and its
substituted form is not already present verbatim among the declared
predicates.  (The source tests `params.len() > 1`; the zero-parameter
case is excluded because a parameter-free, region-free predicate is
fixed by substitution and so always trips the verbatim-duplicate
check.) -/
theorem default_obligations_characterization
    (type_of : Nat → Ty) (const_param_default : Nat → Konst) (g : Generics)
    (predicates : List Predicate) (q : Predicate) :
    q ∈ default_obligations type_of const_param_default g predicates ↔
      ∃ pred, pred ∈ predicates ∧
        q = substPred (default_substs type_of const_param_default g) pred ∧
        (predParamIndices pred).dedup.length = 1 ∧
        predHasRegion pred = false ∧
        predHasParamTypesOrConsts
            (substPred (default_substs type_of const_param_default g) pred) = false ∧
        substPred (default_substs type_of const_param_default g) pred ∉ predicates := by
  unfold default_obligations
  rw [List.mem_filterMap]
  constructor
  · rintro ⟨pred, hmem, hsome⟩
    simp only at hsome
    by_cases hA : predHasParamTypesOrConsts
        (substPred (default_substs type_of const_param_default g) pred) = true
    · simp [hA] at hsome
    by_cases hC : predHasRegion pred = true
    · simp [hC] at hsome
    by_cases hB : (predParamIndices pred).dedup.length > 1
    · simp [hB] at hsome
    by_cases hD : substPred (default_substs type_of const_param_default g) pred ∈ predicates
    · simp [hA, hB, hC, hD] at hsome
    simp only [Bool.not_eq_true] at hA hC
    simp only [hA, hC, hB, hD] at hsome
    simp at hsome
    have hq : q = substPred (default_substs type_of const_param_default g) pred := hsome.symm
    have hone : (predParamIndices pred).dedup.length = 1 := by
      rcases Nat.lt_or_ge (predParamIndices pred).dedup.length 1 with hlt | hge
      · exfalso
        have hz : (predParamIndices pred).dedup = [] := by
          cases hd : (predParamIndices pred).dedup with
          | nil => rfl
          | cons x xs => rw [hd] at hlt; simp at hlt
        have hnilp : predParamIndices pred = [] := (List.dedup_eq_nil _).mp hz
        have hid : substPred (default_substs type_of const_param_default g) pred = pred :=
          substPred_id_of_closed _ pred hnilp hC
        rw [hid] at hD
        exact hD hmem
      · exact Nat.le_antisymm (Nat.not_lt.mp hB) hge
    exact ⟨pred, hmem, hq, hone, hC, hA, hD⟩
  · rintro ⟨pred, hmem, rfl, hcard, hreg, hconc, hnot⟩
    refine ⟨pred, hmem, ?_⟩
    have hB : ¬((predParamIndices pred).dedup.length > 1) := by
      rw [hcard]
      exact Nat.lt_irrefl 1
    simp [hconc, hreg, hB, hnot]

/-- C8: when the `arbitrary_self_types` feature is off and the method
has a `self` parameter, a receiver type that fails strict-mode
validation but passes relaxed-mode validation gets the
feature-suggestion diagnostic naming `arbitrary_self_types` instead of
the plain `E0307` invalid-receiver error. -/
theorem check_method_receiver_suggests_feature (can_eq : Ty → Ty → Bool)
    (receiver_impl : Ty → Bool) (adt_deref : Ty → Option Ty) (fuel : Nat)
    (receiver_ty self_ty : Ty)
    (hstrict : receiver_is_valid can_eq receiver_impl adt_deref fuel receiver_ty self_ty
        false = false)
    (hrelaxed : receiver_is_valid can_eq receiver_impl adt_deref fuel receiver_ty self_ty
        true = true) :
    check_method_receiver can_eq receiver_impl adt_deref fuel false true
        receiver_ty self_ty = ReceiverCheckResult.featureErrArbitrarySelfTypes := by
  simp [check_method_receiver, hstrict, hrelaxed]

/-- C8 witness: `self: *const Self` with no `Receiver` impls anywhere
fails strict validation (a raw pointer does not deref in strict mode)
but passes relaxed validation, and the checker reports the
feature suggestion. -/
theorem check_method_receiver_suggests_feature_witness :
    check_method_receiver (fun a b => decide (a = b)) (fun _ => false) (fun _ => none) 2
        false true (Ty.rawPtr (Ty.tyParam 0 0)) (Ty.tyParam 0 0) =
      ReceiverCheckResult.featureErrArbitrarySelfTypes :=
  check_method_receiver_suggests_feature _ _ _ 2 _ _ (by decide) (by decide)

/-- The per-variant `Sized` selection, characterized: for a struct a
nonempty variant drops its last field from the obligated list exactly
when the container is not packed or the region-erased last field type
has no inference variables and no drop glue; unions and enums obligate
every field. -/
theorem variant_sized_fields_eq (needs_drop : Ty → ParamEnv → Bool)
    (erase_regions : Ty → Ty) (param_env : ParamEnv) (packed : Bool) (kind : AdtKindM)
    (v : AdtVariantM) :
    variant_sized_fields needs_drop erase_regions param_env packed
        (check_item_all_sized kind) v =
      if kind = AdtKindM.structKind ∧ v.fields ≠ [] ∧
          (packed = false ∨
            (tyNeedsInfer (erase_regions (lastFieldTy v)) = false ∧
             needs_drop (erase_regions (lastFieldTy v)) param_env = false))
      then v.fields.dropLast
      else v.fields := by
  cases kind with
  | unionKind =>
      simp [variant_sized_fields, check_item_all_sized, List.take_length]
  | enumKind =>
      simp [variant_sized_fields, check_item_all_sized, List.take_length]
  | structKind =>
      rcases v with ⟨fields, discr⟩
      cases fields with
      | nil => simp [variant_sized_fields, check_item_all_sized]
      | cons f0 fr =>
          have hne : (f0 :: fr : List AdtFieldM) ≠ [] := by simp
          obtain ⟨last, hl⟩ : ∃ y, (f0 :: fr).getLast? = some y := by
            cases h : (f0 :: fr).getLast? with
            | none => exact absurd ((List.getLast?_eq_none_iff).mp h) hne
            | some y => exact ⟨y, rfl⟩
          have hlast : lastFieldTy ⟨f0 :: fr, discr⟩ = last.ty := by
            simp [lastFieldTy, hl]
          simp only [variant_sized_fields, check_item_all_sized, hl, hlast]
          by_cases hp : packed
          · subst hp
            by_cases hinf : tyNeedsInfer (erase_regions last.ty) = true
            · simp [hinf, List.take_length, hne]
            · simp only [Bool.not_eq_true] at hinf
              by_cases hdrop : needs_drop (erase_regions last.ty) param_env = true
              · simp [hinf, hdrop, List.take_length, hne]
              · simp only [Bool.not_eq_true] at hdrop
                simp [hinf, hdrop, hne, List.dropLast_eq_take]
          · have hp2 : packed = false := by simpa using hp
            subst hp2
            simp [hne, List.dropLast_eq_take]

/-- C6 (amended): in `check_type_defn`, every field of every variant
except (conditionally) the last receives a `Sized` obligation; for a
struct (checked with `all_sized = false`) the last field of a nonempty
variant is exempt exactly when the container is not packed or the
region-erased last field type has no inference variables and no drop
glue; for unions and enums (checked with `all_sized = true`) every
field, including the last, receives the obligation. -/
theorem check_type_defn_sized_fields_characterization
    (needs_drop : Ty → ParamEnv → Bool) (erase_regions : Ty → Ty) (param_env : ParamEnv)
    (packed : Bool) (kind : AdtKindM) (variants : List AdtVariantM) :
    check_type_defn_sized_fields needs_drop erase_regions param_env packed kind variants =
      variants.enum.flatMap (fun ve =>
        (if kind = AdtKindM.structKind ∧ ve.2.fields ≠ [] ∧
            (packed = false ∨
              (tyNeedsInfer (erase_regions (lastFieldTy ve.2)) = false ∧
               needs_drop (erase_regions (lastFieldTy ve.2)) param_env = false))
         then ve.2.fields.dropLast
         else ve.2.fields).map (fun f => (ve.1, f))) := by
  unfold check_type_defn_sized_fields
  congr 1
  funext ve
  rw [variant_sized_fields_eq]

/-- C6 counterexample: (i) an unpacked single-field enum variant whose
field type trivially has no drop glue still receives a `Sized`
obligation on its last field; (ii) a packed single-field struct whose
region-erased last field contains an inference variable receives one
even though the drop-glue oracle says no drop glue.  Both contradict
the claim that the last field is exempt whenever the container is not
packed or the type has no drop glue. -/
theorem check_type_defn_sized_fields_counterexample :
    ((0, (⟨Ty.tyParam 0 0, 7⟩ : AdtFieldM)) ∈
        check_type_defn_sized_fields (fun _ _ => false) (fun t => t)
          ⟨[], RevealMode.userFacing, ConstnessMode.notConst⟩ false AdtKindM.enumKind
          [⟨[⟨Ty.tyParam 0 0, 7⟩], none⟩]) ∧
    ((0, (⟨Ty.infer 0, 9⟩ : AdtFieldM)) ∈
        check_type_defn_sized_fields (fun _ _ => false) (fun t => t)
          ⟨[], RevealMode.userFacing, ConstnessMode.notConst⟩ true AdtKindM.structKind
          [⟨[⟨Ty.infer 0, 9⟩], none⟩]) := by
  decide

/-- A type with no projection onto `gat` yields nothing to the
collector. -/
theorem collectTy_eq_nil_of_not_mentions (gat : Nat) :
    ∀ t : Ty, tyMentionsGat gat t = false → collectTy gat t = ([], []) := by
  intro t
  induction t with
  | tyParam i n => intro _; rfl
  | projection id substs ih =>
      intro h
      simp only [tyMentionsGat, Bool.or_eq_false_iff, decide_eq_false_iff_not] at h
      simp [collectTy, h.1, ih h.2]
  | adt d substs ih =>
      intro h
      simp only [tyMentionsGat] at h
      simp [collectTy, ih h]
  | ref r u ih =>
      intro h
      simp only [tyMentionsGat] at h
      simp [collectTy, ih h]
  | rawPtr u ih =>
      intro h
      simp only [tyMentionsGat] at h
      simp [collectTy, ih h]
  | tyError => intro _; rfl
  | infer v => intro _; rfl
  | argsNil => intro _; rfl
  | argsCons hd tl ih1 ih2 =>
      intro h
      simp only [tyMentionsGat, Bool.or_eq_false_iff] at h
      simp [collectTy, ih1 h.1, ih2 h.2]
  | lifetimeArg r => intro _; rfl
  | constArg c => intro _; rfl

/-- A predicate with no projection onto `gat` yields nothing to the
collector. -/
theorem collectPred_eq_nil_of_not_mentions (gat : Nat) (p : Predicate)
    (h : predMentionsGat gat p = false) : collectPred gat p = ([], []) := by
  cases p with
  | traitPred d args =>
      simp only [predMentionsGat] at h
      simp [collectPred, collectTy_eq_nil_of_not_mentions gat args h]
  | typeOutlives t r =>
      simp only [predMentionsGat] at h
      simp [collectPred, collectTy_eq_nil_of_not_mentions gat t h]
  | regionOutlives a b => rfl
  | constEvaluatable d args =>
      simp only [predMentionsGat] at h
      simp [collectPred, collectTy_eq_nil_of_not_mentions gat args h]

/-- A check target with no projection onto `gat` yields nothing to the
collector. -/
theorem collect_eq_nil_of_not_mentions (gat : Nat) :
    ∀ target : GatCheckTarget, target.mentionsGat gat = false →
      target.collect gat = ([], []) := by
  intro target
  cases target with
  | fnOutput t =>
      intro h
      simp only [GatCheckTarget.mentionsGat] at h
      simpa [GatCheckTarget.collect] using collectTy_eq_nil_of_not_mentions gat t h
  | typeBounds ps =>
      intro h
      simp only [GatCheckTarget.mentionsGat] at h
      simp only [GatCheckTarget.collect]
      have hall : ∀ p ∈ ps, predMentionsGat gat p = false := by
        intro p hp
        by_contra hc
        simp only [Bool.not_eq_false] at hc
        have hany : ps.any (fun p => predMentionsGat gat p) = true :=
          List.any_eq_true.mpr ⟨p, hp, hc⟩
        simp [hany] at h
      clear h
      induction ps with
      | nil => rfl
      | cons p rest ih =>
          simp only [collectPreds,
            collectPred_eq_nil_of_not_mentions gat p (hall p (by simp)),
            ih (fun x hx => hall x (by simp [hx]))]
          simp

/-- `gather_gat_bounds` returns `none` on a target with no projection
onto the GAT. -/
theorem gather_gat_bounds_none_of_not_mentions (O : GatOracle) (param_env : ParamEnv)
    (target : GatCheckTarget) (wf_tys : List Ty) (gat_def_id : Nat) (gat_generics : Generics)
    (h : target.mentionsGat gat_def_id = false) :
    gather_gat_bounds O param_env target wf_tys gat_def_id gat_generics = none := by
  unfold gather_gat_bounds
  rw [collect_eq_nil_of_not_mentions gat_def_id target h]
  rfl

/-- Conversely, a `some` answer means the collector found something,
hence the target contains a projection onto the GAT. -/
theorem mentions_of_gather_gat_bounds_isSome (O : GatOracle) (param_env : ParamEnv)
    (target : GatCheckTarget) (wf_tys : List Ty) (gat_def_id : Nat) (gat_generics : Generics)
    (h : (gather_gat_bounds O param_env target wf_tys gat_def_id gat_generics).isSome = true) :
    target.mentionsGat gat_def_id = true := by
  by_contra hm
  simp only [Bool.not_eq_true] at hm
  rw [gather_gat_bounds_none_of_not_mentions O param_env target wf_tys gat_def_id
    gat_generics hm] at h
  simp at h

/-- The item list an intersection pass actually consults: every item
other than the GAT itself whose scan produced a fact set. -/
theorem consult_fold_none_iff (O : GatOracle) (m : GatMap) (gat_item : TraitItemRef) :
    ∀ (items : List TraitItemRef) (acc : Option (List Predicate)),
      consult_fold O m gat_item items acc = none ↔
        acc = none ∧
          items.filter (fun it => decide (it.defId ≠ gat_item.defId) &&
            (item_required_bounds O m gat_item it).isSome) = [] := by
  intro items
  induction items with
  | nil => intro acc; simp [consult_fold]
  | cons item rest ih =>
      intro acc
      by_cases hid : item.defId = gat_item.defId
      · simp [consult_fold, hid, ih]
      · cases hirb : item_required_bounds O m gat_item item with
        | none =>
            simp [consult_fold, hid, hirb, ih]
        | some irb =>
            cases acc with
            | none =>
                simp [consult_fold, hid, hirb, ih]
            | some cur =>
                simp [consult_fold, hid, hirb, ih]

/-- Membership in the intersection computed by the consult loop:
starting from `acc`, an element survives iff it is in `acc` (when
initialized) and in every consulted item's fact set. -/
theorem consult_fold_mem (O : GatOracle) (m : GatMap) (gat_item : TraitItemRef) :
    ∀ (items : List TraitItemRef) (acc : Option (List Predicate)) (s : List Predicate),
      consult_fold O m gat_item items acc = some s →
      ∀ p, p ∈ s ↔
        (match acc with | none => True | some c => p ∈ c) ∧
          ∀ it ∈ items.filter (fun it => decide (it.defId ≠ gat_item.defId) &&
              (item_required_bounds O m gat_item it).isSome),
            p ∈ (item_required_bounds O m gat_item it).getD [] := by
  intro items
  induction items with
  | nil =>
      intro acc s hs p
      cases acc with
      | none => simp [consult_fold] at hs
      | some c =>
          simp only [consult_fold] at hs
          cases hs
          simp
  | cons item rest ih =>
      intro acc s hs p
      by_cases hid : item.defId = gat_item.defId
      · have hfilter : (item :: rest).filter (fun it => decide (it.defId ≠ gat_item.defId) &&
            (item_required_bounds O m gat_item it).isSome) =
            rest.filter (fun it => decide (it.defId ≠ gat_item.defId) &&
              (item_required_bounds O m gat_item it).isSome) := by
          simp [List.filter_cons, hid]
        rw [hfilter]
        simp only [consult_fold, if_pos hid] at hs
        exact ih acc s hs p
      · cases hirb : item_required_bounds O m gat_item item with
        | none =>
            have hfilter : (item :: rest).filter (fun it => decide (it.defId ≠ gat_item.defId) &&
                (item_required_bounds O m gat_item it).isSome) =
                rest.filter (fun it => decide (it.defId ≠ gat_item.defId) &&
                  (item_required_bounds O m gat_item it).isSome) := by
              simp [List.filter_cons, hid, hirb]
            rw [hfilter]
            simp only [consult_fold, if_neg hid, hirb] at hs
            exact ih acc s hs p
        | some irb =>
            have hfilter : (item :: rest).filter (fun it => decide (it.defId ≠ gat_item.defId) &&
                (item_required_bounds O m gat_item it).isSome) =
                item :: rest.filter (fun it => decide (it.defId ≠ gat_item.defId) &&
                  (item_required_bounds O m gat_item it).isSome) := by
              simp [List.filter_cons, hid, hirb]
            rw [hfilter]
            cases acc with
            | none =>
                simp only [consult_fold, if_neg hid, hirb] at hs
                have hmem := ih (some irb) s hs p
                rw [hmem]
                simp only [List.forall_mem_cons, hirb, Option.getD_some, true_and]
            | some cur =>
                simp only [consult_fold, if_neg hid, hirb] at hs
                have hmem := ih (some (cur.filter (fun b => b ∈ irb))) s hs p
                rw [hmem]
                simp only [List.forall_mem_cons, hirb, Option.getD_some, List.mem_filter,
                  decide_eq_true_eq]
                tauto

/-- C2: in one pass, a GAT's required bound set is exactly the
intersection of the fact sets of the consulting items — the items
other than the GAT itself whose scan produced a fact set (`none` means
no consultation, and the result is `none` iff no item consulted).  An
item is consulting only if its checked types contain at least one
projection onto the GAT, and an item with no occurrence of the GAT
contributes no fact set at all, so it cannot shrink the
intersection. -/
theorem new_required_bounds_is_intersection (O : GatOracle) (m : GatMap)
    (gat_item : TraitItemRef) (associated_items : List TraitItemRef) :
    (new_required_bounds O m gat_item associated_items = none ↔
      associated_items.filter (fun it => decide (it.defId ≠ gat_item.defId) &&
        (item_required_bounds O m gat_item it).isSome) = []) ∧
    (∀ s, new_required_bounds O m gat_item associated_items = some s →
      ∀ p, p ∈ s ↔
        ∀ it ∈ associated_items.filter (fun it => decide (it.defId ≠ gat_item.defId) &&
            (item_required_bounds O m gat_item it).isSome),
          p ∈ (item_required_bounds O m gat_item it).getD []) ∧
    (∀ it : TraitItemRef, (item_required_bounds O m gat_item it).isSome = true →
      itemCheckTargetMentionsGat O gat_item.defId it = true) ∧
    (∀ it : TraitItemRef, itemCheckTargetMentionsGat O gat_item.defId it = false →
      item_required_bounds O m gat_item it = none) := by
  refine ⟨?_, ?_, ?_, ?_⟩
  · rw [new_required_bounds, consult_fold_none_iff]
    simp
  · intro s hs p
    have := consult_fold_mem O m gat_item associated_items none s hs p
    simpa using this
  · intro it hsome
    cases hk : it.kind with
    | fnItem =>
        rw [item_required_bounds, hk] at hsome
        simp only at hsome
        have := mentions_of_gather_gat_bounds_isSome O (O.paramEnvQuery it.defId)
          (GatCheckTarget.fnOutput (O.liberate it.defId it.fnSig).output)
          (O.liberate it.defId it.fnSig).inputs gat_item.defId gat_item.generics hsome
        simpa [itemCheckTargetMentionsGat, hk, GatCheckTarget.mentionsGat] using this
    | typeItem =>
        rw [item_required_bounds, hk] at hsome
        simp only at hsome
        have := mentions_of_gather_gat_bounds_isSome O
          (augment_param_env (O.paramEnvQuery it.defId) (gatMapGet m it.defId))
          (GatCheckTarget.typeBounds it.itemBounds) [] gat_item.defId gat_item.generics hsome
        simpa [itemCheckTargetMentionsGat, hk, GatCheckTarget.mentionsGat] using this
    | constItem =>
        rw [item_required_bounds, hk] at hsome
        simp at hsome
  · intro it hnone
    cases hk : it.kind with
    | fnItem =>
        rw [itemCheckTargetMentionsGat, hk] at hnone
        simp only at hnone
        rw [item_required_bounds, hk]
        simp only
        exact gather_gat_bounds_none_of_not_mentions O _ _ _ _ _
          (by simpa [GatCheckTarget.mentionsGat] using hnone)
    | typeItem =>
        rw [itemCheckTargetMentionsGat, hk] at hnone
        simp only at hnone
        rw [item_required_bounds, hk]
        simp only
        exact gather_gat_bounds_none_of_not_mentions O _ _ _ _ _
          (by simpa [GatCheckTarget.mentionsGat] using hnone)
    | constItem =>
        rw [item_required_bounds, hk]

/-- C2 witness: for a concrete two-item trait (one GAT, one method
whose return type projects onto the GAT) and an always-yes oracle, the
inferred clause is a member of the one-pass required set computed by
the intersection. -/
theorem new_required_bounds_is_intersection_witness :
    Predicate.typeOutlives (Ty.tyParam 0 0) (Region.reEarlyBound 100 0 50) ∈
      [Predicate.typeOutlives (Ty.tyParam 0 0) (Region.reEarlyBound 100 0 50)] :=
  (((new_required_bounds_is_intersection
      ⟨fun _ sig => sig, fun _ => ⟨[], RevealMode.userFacing, ConstnessMode.notConst⟩,
        fun _ _ _ _ => true, fun _ _ _ _ => true⟩
      []
      ⟨1, AssocItemKind.typeItem, ⟨[], Ty.tyError⟩, [],
        ⟨[], [⟨100, 0, 50, GenericParamDefKind.lifetime⟩]⟩⟩
      [⟨1, AssocItemKind.typeItem, ⟨[], Ty.tyError⟩, [],
          ⟨[], [⟨100, 0, 50, GenericParamDefKind.lifetime⟩]⟩⟩,
        ⟨2, AssocItemKind.fnItem,
          ⟨[], Ty.projection 1 (Ty.argsCons (Ty.lifetimeArg (Region.reFree 7))
            (Ty.argsCons (Ty.tyParam 0 0) Ty.argsNil))⟩, [], ⟨[], []⟩⟩]).2.1
      [Predicate.typeOutlives (Ty.tyParam 0 0) (Region.reEarlyBound 100 0 50)]
      (by decide)
      (Predicate.typeOutlives (Ty.tyParam 0 0) (Region.reEarlyBound 100 0 50))).mpr
    (by decide))

/-- A short-circuited insertion that reports no change leaves the set
untouched. -/
theorem insertAny_snd_false (s : List Predicate) :
    ∀ l, (insertAny s l).2 = false → (insertAny s l).1 = s := by
  intro l
  induction l with
  | nil => intro _; rfl
  | cons p rest ih =>
      intro h
      by_cases hp : p ∈ s
      · simp only [insertAny, if_pos hp] at h ⊢
        exact ih h
      · simp [insertAny, if_neg hp] at h

/-- A short-circuited insertion that reports a change adds exactly one
element. -/
theorem insertAny_snd_true_length (s : List Predicate) :
    ∀ l, (insertAny s l).2 = true → (insertAny s l).1.length = s.length + 1 := by
  intro l
  induction l with
  | nil => intro h; simp [insertAny] at h
  | cons p rest ih =>
      intro h
      by_cases hp : p ∈ s
      · simp only [insertAny, if_pos hp] at h ⊢
        exact ih h
      · simp [insertAny, if_neg hp]

/-- Insertion never removes elements. -/
theorem insertAny_mem_left (s : List Predicate) :
    ∀ l (p : Predicate), p ∈ s → p ∈ (insertAny s l).1 := by
  intro l
  induction l with
  | nil => intro p hp; exact hp
  | cons q rest ih =>
      intro p hp
      by_cases hq : q ∈ s
      · simp only [insertAny, if_pos hq]
        exact ih p hp
      · simp only [insertAny, if_neg hq]
        simp [hp]

/-- Every element of the insertion result comes from the set or from
the inserted list. -/
theorem insertAny_mem (s : List Predicate) :
    ∀ l, ∀ p ∈ (insertAny s l).1, p ∈ s ∨ p ∈ l := by
  intro l
  induction l with
  | nil => intro p hp; exact Or.inl hp
  | cons q rest ih =>
      intro p hp
      by_cases hq : q ∈ s
      · simp only [insertAny, if_pos hq] at hp
        rcases ih p hp with h | h
        · exact Or.inl h
        · exact Or.inr (by simp [h])
      · simp only [insertAny, if_neg hq, List.mem_append, List.mem_singleton] at hp
        rcases hp with h | h
        · exact Or.inl h
        · exact Or.inr (by simp [h])

/-- Insertion preserves duplicate-freedom. -/
theorem insertAny_nodup (s : List Predicate) :
    ∀ l, s.Nodup → (insertAny s l).1.Nodup := by
  intro l
  induction l with
  | nil => intro h; exact h
  | cons q rest ih =>
      intro h
      by_cases hq : q ∈ s
      · simp only [insertAny, if_pos hq]
        exact ih h
      · simp only [insertAny, if_neg hq]
        simp [List.nodup_append, h, hq]

/-- The length of a short-circuited insertion result, in terms of its
change flag. -/
theorem insertAny_length (s : List Predicate) :
    ∀ l, (insertAny s l).1.length =
      s.length + (if (insertAny s l).2 then 1 else 0) := by
  intro l
  induction l with
  | nil => simp [insertAny]
  | cons p rest ih =>
      by_cases hp : p ∈ s
      · simp only [insertAny, if_pos hp]
        exact ih
      · simp [insertAny, if_neg hp]

/-- The merge increments the total size exactly when it reports a
change. -/
theorem gatMapMerge_totalCard (k : Nat) (new : List Predicate) :
    ∀ m : GatMap, totalCard (gatMapMerge m k new).1 =
      totalCard m + (if (gatMapMerge m k new).2 then 1 else 0) := by
  intro m
  induction m with
  | nil =>
      simp only [gatMapMerge, totalCard, List.map_cons, List.sum_cons, List.map_nil,
        List.sum_nil]
      have := insertAny_length [] new
      simp only [List.length_nil] at this
      omega
  | cons e rest ih =>
      by_cases he : e.1 = k
      · simp only [gatMapMerge, if_pos he, totalCard, List.map_cons, List.sum_cons]
        have := insertAny_length e.2 new
        omega
      · simp only [gatMapMerge, if_neg he]
        simp only [totalCard, List.map_cons, List.sum_cons] at ih ⊢
        omega

/-- The merged entry for the target key. -/
theorem gatMapMerge_get_self (k : Nat) (new : List Predicate) :
    ∀ m : GatMap, gatMapGet (gatMapMerge m k new).1 k =
      some (insertAny (gatMapGetD m k) new).1 := by
  intro m
  induction m with
  | nil => simp [gatMapMerge, gatMapGet, gatMapGetD]
  | cons e rest ih =>
      by_cases he : e.1 = k
      · simp [gatMapMerge, if_pos he, gatMapGet, gatMapGetD, he]
      · simp only [gatMapMerge, if_neg he]
        simp only [gatMapGet, if_neg he, gatMapGetD]
        rw [ih]
        simp [gatMapGetD, gatMapGet, if_neg he]

/-- The merge leaves every other key's entry unchanged. -/
theorem gatMapMerge_get_other (k : Nat) (new : List Predicate) (j : Nat) (hne : j ≠ k) :
    ∀ m : GatMap, gatMapGet (gatMapMerge m k new).1 j = gatMapGet m j := by
  intro m
  induction m with
  | nil => simp [gatMapMerge, gatMapGet, Ne.symm hne]
  | cons e rest ih =>
      by_cases he : e.1 = k
      · have hej : ¬(k = j) := fun h => hne h.symm
        simp [gatMapMerge, if_pos he, gatMapGet, he, hej]
      · by_cases hej : e.1 = j
        · simp only [gatMapMerge, if_neg he]
          simp [gatMapGet, hej]
        · simp only [gatMapMerge, if_neg he]
          simp [gatMapGet, hej, ih]

/-- The merged key list. -/
theorem gatMapMerge_keys (k : Nat) (new : List Predicate) :
    ∀ m : GatMap, mapKeys (gatMapMerge m k new).1 =
      if k ∈ mapKeys m then mapKeys m else mapKeys m ++ [k] := by
  intro m
  induction m with
  | nil => simp [gatMapMerge, mapKeys]
  | cons e rest ih =>
      by_cases he : e.1 = k
      · simp [gatMapMerge, if_pos he, mapKeys, he]
      · have hke : ¬(k = e.1) := fun h => he h.symm
        simp only [gatMapMerge, if_neg he, mapKeys, List.map_cons]
        simp only [mapKeys] at ih
        rw [ih]
        by_cases hmem : k ∈ rest.map (fun e => e.1)
        · simp [hmem, hke]
        · simp [hmem, hke]

/-- Every entry of the merged map is an old entry or the updated entry
for the target key. -/
theorem gatMapMerge_entry (k : Nat) (new : List Predicate) :
    ∀ m : GatMap, ∀ e ∈ (gatMapMerge m k new).1,
      e ∈ m ∨ (e.1 = k ∧ e.2 = (insertAny (gatMapGetD m k) new).1) := by
  intro m
  induction m with
  | nil =>
      intro e he
      simp only [gatMapMerge, List.mem_singleton] at he
      subst he
      exact Or.inr ⟨rfl, by simp [gatMapGetD, gatMapGet]⟩
  | cons f rest ih =>
      intro e he
      by_cases hf : f.1 = k
      · simp only [gatMapMerge, if_pos hf, List.mem_cons] at he
        rcases he with he | he
        · subst he
          exact Or.inr ⟨rfl, by simp [gatMapGetD, gatMapGet, hf]⟩
        · exact Or.inl (List.mem_cons_of_mem f he)
      · simp only [gatMapMerge, if_neg hf, List.mem_cons] at he
        rcases he with he | he
        · exact Or.inl (by rw [he]; exact List.mem_cons_self _ _)
        · rcases ih e he with h | h
          · exact Or.inl (List.mem_cons_of_mem f h)
          · refine Or.inr ⟨h.1, ?_⟩
            rw [h.2]
            have : gatMapGetD (f :: rest) k = gatMapGetD rest k := by
              simp [gatMapGetD, gatMapGet, hf]
            rw [this]

/-- A looked-up entry is an entry of the map. -/
theorem gatMapGet_mem : ∀ (m : GatMap) (k : Nat) (s : List Predicate),
    gatMapGet m k = some s → (k, s) ∈ m := by
  intro m
  induction m with
  | nil => intro k s h; simp [gatMapGet] at h
  | cons e rest ih =>
      intro k s h
      by_cases he : e.1 = k
      · simp only [gatMapGet, if_pos he] at h
        cases h
        rcases e with ⟨k1, s1⟩
        simp only at he
        subst he
        exact List.mem_cons_self _ _
      · simp only [gatMapGet, if_neg he] at h
        exact List.mem_cons_of_mem e (ih k s h)

/-- `param_at` always lands in the parameter list extended by the
placeholder. -/
theorem paramAt_mem_paramsWithDefault (g : Generics) (i : Nat) :
    g.paramAt i ∈ g.paramsWithDefault := by
  unfold Generics.paramAt Generics.paramsWithDefault
  rcases Nat.lt_or_ge i g.allParams.length with h | h
  · have hmem : g.allParams.getD i dfltGenericParam ∈ g.allParams := by
      rw [List.getD_eq_getElem?_getD, List.getElem?_eq_getElem h]
      exact List.getElem_mem h
    unfold Generics.allParams at hmem
    exact List.mem_append_left _ hmem
  · have : g.allParams.getD i dfltGenericParam = dfltGenericParam := by
      rw [List.getD_eq_getElem?_getD, List.getElem?_eq_none h]
      rfl
    rw [this]
    exact List.mem_append_right _ (by simp)

/-- The type-outlives clause built for any pair of positional indices
lies in the GAT's finite clause universe. -/
theorem mkTyOutlivesClause_mem_universe (g : Generics) (i j : Nat) :
    mkTyOutlivesClause g i j ∈ predUniverse g := by
  unfold mkTyOutlivesClause predUniverse
  rw [List.mem_flatMap]
  exact ⟨g.paramAt i, paramAt_mem_paramsWithDefault g i, by
    rw [List.mem_flatMap]
    exact ⟨g.paramAt j, paramAt_mem_paramsWithDefault g j, by simp⟩⟩

/-- The region-outlives clause built for any pair of positional
indices lies in the GAT's finite clause universe. -/
theorem mkRegionOutlivesClause_mem_universe (g : Generics) (i j : Nat) :
    mkRegionOutlivesClause g i j ∈ predUniverse g := by
  unfold mkRegionOutlivesClause predUniverse
  rw [List.mem_flatMap]
  exact ⟨g.paramAt i, paramAt_mem_paramsWithDefault g i, by
    rw [List.mem_flatMap]
    exact ⟨g.paramAt j, paramAt_mem_paramsWithDefault g j, by simp⟩⟩

/-- Every clause `gather_gat_bounds` certifies lies in the GAT's
finite clause universe. -/
theorem gather_gat_bounds_subset_universe (O : GatOracle) (param_env : ParamEnv)
    (target : GatCheckTarget) (wf_tys : List Ty) (gat_def_id : Nat) (g : Generics)
    (s : List Predicate)
    (h : gather_gat_bounds O param_env target wf_tys gat_def_id g = some s) :
    ∀ p ∈ s, p ∈ predUniverse g := by
  intro p hp
  unfold gather_gat_bounds at h
  by_cases hc : ((target.collect gat_def_id).2.isEmpty &&
      (target.collect gat_def_id).1.isEmpty) = true
  · simp only [hc] at h
    simp at h
  · simp only [Bool.not_eq_true] at hc
    simp only [hc, Bool.false_eq_true, if_false] at h
    cases h
    rw [List.mem_flatMap] at hp
    obtain ⟨ra, _, hpra⟩ := hp
    by_cases hst : ra.1 = Region.reStatic
    · simp [hst] at hpra
    · simp only [hst, if_false, ite_false, List.mem_append] at hpra
      rcases hpra with hmem | hmem
      · rw [List.mem_filterMap] at hmem
        obtain ⟨t, _, ht⟩ := hmem
        by_cases hor : O.tyOutlives param_env wf_tys t.1 ra.1 = true
        · simp only [hor, if_true, Option.some.injEq] at ht
          rw [← ht]
          exact mkTyOutlivesClause_mem_universe g t.2 ra.2
        · simp [hor] at ht
      · rw [List.mem_filterMap] at hmem
        obtain ⟨rb, _, hrb⟩ := hmem
        by_cases hskip : rb.1 = Region.reStatic ∨ ra.1 = rb.1
        · simp [hskip] at hrb
        · simp only [hskip, if_false, ite_false] at hrb
          by_cases hor : O.regionOutlives param_env wf_tys ra.1 rb.1 = true
          · simp only [hor, if_true, Option.some.injEq] at hrb
            rw [← hrb]
            exact mkRegionOutlivesClause_mem_universe g ra.2 rb.2
          · simp [hor] at hrb

/-- Every clause an item contributes for a GAT lies in that GAT's
clause universe. -/
theorem item_required_bounds_subset_universe (O : GatOracle) (m : GatMap)
    (gat_item item : TraitItemRef) (s : List Predicate)
    (h : item_required_bounds O m gat_item item = some s) :
    ∀ p ∈ s, p ∈ predUniverse gat_item.generics := by
  unfold item_required_bounds at h
  cases hk : item.kind with
  | fnItem =>
      rw [hk] at h
      simp only at h
      exact gather_gat_bounds_subset_universe O _ _ _ _ _ s h
  | typeItem =>
      rw [hk] at h
      simp only at h
      exact gather_gat_bounds_subset_universe O _ _ _ _ _ s h
  | constItem =>
      rw [hk] at h
      simp at h

/-- The consult loop only propagates clauses from the items' fact
sets (or the initial accumulator). -/
theorem consult_fold_subset_universe (O : GatOracle) (m : GatMap) (gat_item : TraitItemRef) :
    ∀ (items : List TraitItemRef) (acc : Option (List Predicate)) (s : List Predicate),
      (∀ c, acc = some c → ∀ p ∈ c, p ∈ predUniverse gat_item.generics) →
      consult_fold O m gat_item items acc = some s →
      ∀ p ∈ s, p ∈ predUniverse gat_item.generics := by
  intro items
  induction items with
  | nil =>
      intro acc s hacc hfold
      exact hacc s hfold
  | cons item rest ih =>
      intro acc s hacc hfold
      by_cases hid : item.defId = gat_item.defId
      · simp only [consult_fold, if_pos hid] at hfold
        exact ih acc s hacc hfold
      · cases hirb : item_required_bounds O m gat_item item with
        | none =>
            simp only [consult_fold, if_neg hid, hirb] at hfold
            exact ih acc s hacc hfold
        | some irb =>
            cases acc with
            | none =>
                simp only [consult_fold, if_neg hid, hirb] at hfold
                refine ih (some irb) s ?_ hfold
                intro c hc
                cases hc
                exact item_required_bounds_subset_universe O m gat_item item irb hirb
            | some cur =>
                simp only [consult_fold, if_neg hid, hirb] at hfold
                refine ih (some (cur.filter (fun b => b ∈ irb))) s ?_ hfold
                intro c hc p hpc
                cases hc
                rw [List.mem_filter] at hpc
                exact hacc cur rfl p hpc.1

/-- The per-pass required set lies in the GAT's clause universe. -/
theorem new_required_bounds_subset_universe (O : GatOracle) (m : GatMap)
    (gat_item : TraitItemRef) (items : List TraitItemRef) (s : List Predicate)
    (h : new_required_bounds O m gat_item items = some s) :
    ∀ p ∈ s, p ∈ predUniverse gat_item.generics :=
  consult_fold_subset_universe O m gat_item items none s (by intro c hc; cases hc) h

/-- A pass never removes a clause from any GAT's accumulated set. -/
theorem gat_pass_getD_mono (O : GatOracle) (associated_items : List TraitItemRef) :
    ∀ (gats : List TraitItemRef) (m : GatMap) (k : Nat) (p : Predicate),
      p ∈ gatMapGetD m k →
        p ∈ gatMapGetD (gat_pass O associated_items m gats).1 k := by
  intro gats
  induction gats with
  | nil => intro m k p hp; exact hp
  | cons gat_item rest ih =>
      intro m k p hp
      by_cases h1 : gat_item.kind ≠ AssocItemKind.typeItem
      · simp only [gat_pass, if_pos h1]
        exact ih m k p hp
      · by_cases h2 : gat_item.generics.params.isEmpty = true
        · simp only [gat_pass, if_neg h1, if_pos h2]
          exact ih m k p hp
        · simp only [gat_pass, if_neg h1, if_neg h2]
          cases hnrb : new_required_bounds O m gat_item associated_items with
          | none => exact ih m k p hp
          | some nrb =>
              simp only
              refine ih (gatMapMerge m gat_item.defId nrb).1 k p ?_
              by_cases hk : k = gat_item.defId
              · subst hk
                unfold gatMapGetD
                rw [gatMapMerge_get_self]
                simp only [Option.getD_some]
                exact insertAny_mem_left _ nrb p hp
              · unfold gatMapGetD
                rw [gatMapMerge_get_other _ _ _ hk]
                exact hp

/-- A pass never decreases the total accumulated size. -/
theorem gat_pass_totalCard_mono (O : GatOracle) (associated_items : List TraitItemRef) :
    ∀ (gats : List TraitItemRef) (m : GatMap),
      totalCard m ≤ totalCard (gat_pass O associated_items m gats).1 := by
  intro gats
  induction gats with
  | nil => intro m; exact Nat.le_refl _
  | cons gat_item rest ih =>
      intro m
      by_cases h1 : gat_item.kind ≠ AssocItemKind.typeItem
      · simp only [gat_pass, if_pos h1]; exact ih m
      · by_cases h2 : gat_item.generics.params.isEmpty = true
        · simp only [gat_pass, if_neg h1, if_pos h2]; exact ih m
        · simp only [gat_pass, if_neg h1, if_neg h2]
          cases hnrb : new_required_bounds O m gat_item associated_items with
          | none => exact ih m
          | some nrb =>
              simp only
              have h3 := gatMapMerge_totalCard gat_item.defId nrb m
              have h4 := ih (gatMapMerge m gat_item.defId nrb).1
              omega

/-- A pass that reports a change has strictly grown the accumulator:
the loop repeats only when some accumulated set grew. -/
theorem gat_pass_flag_growth (O : GatOracle) (associated_items : List TraitItemRef) :
    ∀ (gats : List TraitItemRef) (m : GatMap),
      (gat_pass O associated_items m gats).2 = true →
        totalCard m < totalCard (gat_pass O associated_items m gats).1 := by
  intro gats
  induction gats with
  | nil => intro m h; simp [gat_pass] at h
  | cons gat_item rest ih =>
      intro m h
      by_cases h1 : gat_item.kind ≠ AssocItemKind.typeItem
      · simp only [gat_pass, if_pos h1] at h ⊢
        exact ih m h
      · by_cases h2 : gat_item.generics.params.isEmpty = true
        · simp only [gat_pass, if_neg h1, if_pos h2] at h ⊢
          exact ih m h
        · simp only [gat_pass, if_neg h1, if_neg h2] at h ⊢
          cases hnrb : new_required_bounds O m gat_item associated_items with
          | none =>
              rw [hnrb] at h
              exact ih m h
          | some nrb =>
              rw [hnrb] at h
              have hor : ((gatMapMerge m gat_item.defId nrb).2 ||
                  (gat_pass O associated_items (gatMapMerge m gat_item.defId nrb).1
                    rest).2) = true := h
              show totalCard m < totalCard
                (gat_pass O associated_items (gatMapMerge m gat_item.defId nrb).1 rest).1
              simp only [Bool.or_eq_true] at hor
              have hmerge := gatMapMerge_totalCard gat_item.defId nrb m
              have hmono := gat_pass_totalCard_mono O associated_items rest
                (gatMapMerge m gat_item.defId nrb).1
              rcases hor with hflag | hflag
              · rw [hflag] at hmerge
                simp only [if_true] at hmerge
                omega
              · have := ih (gatMapMerge m gat_item.defId nrb).1 hflag
                omega

/-- A pass over GATs drawn from `associated_items` preserves the
accumulator invariant: distinct keys, duplicate-free sets, and every
clause in the clause universe of some item with the entry's def-id. -/
theorem gat_pass_preserves_inv (O : GatOracle) (associated_items : List TraitItemRef) :
    ∀ (gats : List TraitItemRef) (m : GatMap),
      (∀ g ∈ gats, g ∈ associated_items) →
      (mapKeys m).Nodup →
      (∀ e ∈ m, e.2.Nodup ∧ ∀ p ∈ e.2, ∃ it, it ∈ associated_items ∧ it.defId = e.1 ∧
        p ∈ predUniverse it.generics) →
      (mapKeys (gat_pass O associated_items m gats).1).Nodup ∧
      (∀ e ∈ (gat_pass O associated_items m gats).1, e.2.Nodup ∧
        ∀ p ∈ e.2, ∃ it, it ∈ associated_items ∧ it.defId = e.1 ∧
          p ∈ predUniverse it.generics) := by
  intro gats
  induction gats with
  | nil => intro m _ hkeys hinv; exact ⟨hkeys, hinv⟩
  | cons gat_item rest ih =>
      intro m hsub hkeys hinv
      have hsubrest : ∀ g ∈ rest, g ∈ associated_items := fun g hg =>
        hsub g (List.mem_cons_of_mem _ hg)
      have hgmem : gat_item ∈ associated_items := hsub gat_item (List.mem_cons_self _ _)
      by_cases h1 : gat_item.kind ≠ AssocItemKind.typeItem
      · simp only [gat_pass, if_pos h1]
        exact ih m hsubrest hkeys hinv
      · by_cases h2 : gat_item.generics.params.isEmpty = true
        · simp only [gat_pass, if_neg h1, if_pos h2]
          exact ih m hsubrest hkeys hinv
        · simp only [gat_pass, if_neg h1, if_neg h2]
          cases hnrb : new_required_bounds O m gat_item associated_items with
          | none => exact ih m hsubrest hkeys hinv
          | some nrb =>
              simp only
              have hnrbU : ∀ p ∈ nrb, p ∈ predUniverse gat_item.generics :=
                new_required_bounds_subset_universe O m gat_item associated_items nrb hnrb
              have hgetD : (gatMapGetD m gat_item.defId).Nodup ∧
                  ∀ p ∈ gatMapGetD m gat_item.defId, ∃ it, it ∈ associated_items ∧
                    it.defId = gat_item.defId ∧ p ∈ predUniverse it.generics := by
                unfold gatMapGetD
                cases hget : gatMapGet m gat_item.defId with
                | none => simp
                | some s0 =>
                    have hentry := hinv (gat_item.defId, s0) (gatMapGet_mem m _ s0 hget)
                    simpa using hentry
              refine ih (gatMapMerge m gat_item.defId nrb).1 hsubrest ?_ ?_
              · rw [gatMapMerge_keys]
                by_cases hk : gat_item.defId ∈ mapKeys m
                · simp only [hk, if_true]
                  exact hkeys
                · simp only [hk, if_false, ite_false]
                  simp [List.nodup_append, hkeys, hk]
              · intro e he
                rcases gatMapMerge_entry gat_item.defId nrb m e he with hold | hnew
                · exact hinv e hold
                · constructor
                  · rw [hnew.2]
                    exact insertAny_nodup _ nrb hgetD.1
                  · intro p hpe
                    rw [hnew.2] at hpe
                    rcases insertAny_mem _ nrb p hpe with hpd | hpn
                    · obtain ⟨it, hit1, hit2, hit3⟩ := hgetD.2 p hpd
                      exact ⟨it, hit1, by rw [hnew.1]; exact hit2, hit3⟩
                    · exact ⟨gat_item, hgmem, by rw [hnew.1], hnrbU p hpn⟩

/-- A duplicate-free list contained in another list is no longer than
it. -/
theorem nodup_subset_length_le (s L : List Predicate) (hnd : s.Nodup)
    (hsub : ∀ p ∈ s, p ∈ L) : s.length ≤ L.length := by
  have h1 : s.toFinset.card = s.length := by
    rw [List.card_toFinset, hnd.dedup]
  have h2 : s.toFinset ⊆ L.toFinset := by
    intro x hx
    rw [List.mem_toFinset] at hx ⊢
    exact hsub x hx
  calc s.length = s.toFinset.card := h1.symm
    _ ≤ L.toFinset.card := Finset.card_le_card h2
    _ ≤ L.length := List.toFinset_card_le L

/-- Summing over a filtered list never exceeds the full sum. -/
theorem sum_map_filter_le {α : Type} (f : α → Nat) (p : α → Bool) :
    ∀ l : List α, ((l.filter p).map f).sum ≤ (l.map f).sum := by
  intro l
  induction l with
  | nil => simp
  | cons a rest ih =>
      by_cases hp : p a = true
      · simp only [List.filter_cons, hp, if_true, List.map_cons, List.sum_cons]
        omega
      · simp only [List.filter_cons, hp, Bool.false_eq_true, if_false, List.map_cons,
          List.sum_cons]
        omega

/-- A filter by a disjunction of two mutually exclusive predicates
splits the mapped sum. -/
theorem sum_filter_or_split {α : Type} (f : α → Nat) (p q : α → Bool)
    (hdisj : ∀ a, ¬(p a = true ∧ q a = true)) :
    ∀ l : List α, ((l.filter (fun a => p a || q a)).map f).sum =
      ((l.filter p).map f).sum + ((l.filter q).map f).sum := by
  intro l
  induction l with
  | nil => simp
  | cons a rest ih =>
      cases hp : p a with
      | true =>
          have hq : q a = false := by
            cases hq2 : q a with
            | true => exact absurd ⟨hp, hq2⟩ (hdisj a)
            | false => rfl
          simp only [List.filter_cons, hp, hq, Bool.true_or, if_true, List.map_cons,
            List.sum_cons, Bool.false_eq_true, if_false, ite_true, ite_false]
          omega
      | false =>
          cases hq : q a with
          | true =>
              simp only [List.filter_cons, hp, hq, Bool.false_or, List.map_cons,
                List.sum_cons, Bool.false_eq_true, if_false, if_true, ite_true, ite_false]
              omega
          | false =>
              simp only [List.filter_cons, hp, hq, Bool.false_or, Bool.false_eq_true,
                if_false, ite_false]
              exact ih

/-- Deciding membership in a cons splits into a disjunction of
decisions. -/
theorem decide_mem_cons (a k : Nat) (ks : List Nat) :
    decide (a ∈ k :: ks) = (decide (a = k) || decide (a ∈ ks)) := by
  by_cases h1 : a = k
  · simp [h1]
  · by_cases h2 : a ∈ ks <;> simp [h1, h2]

/-- Under the accumulator invariant, the total size is bounded by the
universes of the items whose def-ids occur as keys. -/
theorem totalCard_le_filtered (associated_items : List TraitItemRef) :
    ∀ m : GatMap, (mapKeys m).Nodup →
      (∀ e ∈ m, e.2.Nodup ∧ ∀ p ∈ e.2, ∃ it, it ∈ associated_items ∧ it.defId = e.1 ∧
        p ∈ predUniverse it.generics) →
      totalCard m ≤
        ((associated_items.filter (fun it => decide (it.defId ∈ mapKeys m))).map
          (fun it => (predUniverse it.generics).length)).sum := by
  intro m
  induction m with
  | nil => intro _ _; simp [totalCard]
  | cons e rest ih =>
      intro hkeys hinv
      rcases e with ⟨k, s⟩
      have hkeys2 : (mapKeys rest).Nodup := by
        simp only [mapKeys, List.map_cons] at hkeys
        exact hkeys.of_cons
      have hknotin : k ∉ mapKeys rest := by
        simp only [mapKeys, List.map_cons, List.nodup_cons] at hkeys
        exact hkeys.1
      have hinv2 : ∀ e ∈ rest, e.2.Nodup ∧ ∀ p ∈ e.2, ∃ it, it ∈ associated_items ∧
          it.defId = e.1 ∧ p ∈ predUniverse it.generics :=
        fun e he => hinv e (List.mem_cons_of_mem _ he)
      have hhead := hinv (k, s) (List.mem_cons_self _ _)
      have hslen : s.length ≤
          ((associated_items.filter (fun it => decide (it.defId = k))).map
            (fun it => (predUniverse it.generics).length)).sum := by
        set L := (associated_items.filter (fun it => decide (it.defId = k))).flatMap
          (fun it => predUniverse it.generics) with hL
        have hsub : ∀ p ∈ s, p ∈ L := by
          intro p hp
          obtain ⟨it, hit1, hit2, hit3⟩ := hhead.2 p hp
          rw [hL, List.mem_flatMap]
          exact ⟨it, by rw [List.mem_filter]; exact ⟨hit1, by simp [hit2]⟩, hit3⟩
        have hlen := nodup_subset_length_le s L hhead.1 hsub
        have hLlen : L.length =
            ((associated_items.filter (fun it => decide (it.defId = k))).map
              (fun it => (predUniverse it.generics).length)).sum := by
          rw [hL, List.length_flatMap]
          rfl
        omega
      have hrest := ih hkeys2 hinv2
      have hfun : (fun it : TraitItemRef => decide (it.defId ∈ mapKeys ((k, s) :: rest))) =
          (fun it : TraitItemRef =>
            decide (it.defId = k) || decide (it.defId ∈ mapKeys rest)) := by
        funext it
        exact decide_mem_cons it.defId k (mapKeys rest)
      have hdisj : ∀ it : TraitItemRef, ¬(decide (it.defId = k) = true ∧
          decide (it.defId ∈ mapKeys rest) = true) := by
        rintro it ⟨ha, hb⟩
        rw [decide_eq_true_eq] at ha hb
        rw [ha] at hb
        exact hknotin hb
      calc totalCard ((k, s) :: rest)
          = s.length + totalCard rest := by simp [totalCard]
        _ ≤ ((associated_items.filter (fun it => decide (it.defId = k))).map
              (fun it => (predUniverse it.generics).length)).sum +
            ((associated_items.filter (fun it => decide (it.defId ∈ mapKeys rest))).map
              (fun it => (predUniverse it.generics).length)).sum :=
          Nat.add_le_add hslen hrest
        _ = ((associated_items.filter (fun it =>
              decide (it.defId = k) || decide (it.defId ∈ mapKeys rest))).map
              (fun it => (predUniverse it.generics).length)).sum :=
          (sum_filter_or_split (fun it => (predUniverse it.generics).length)
            (fun it => decide (it.defId = k)) (fun it => decide (it.defId ∈ mapKeys rest))
            hdisj associated_items).symm
        _ = ((associated_items.filter (fun it =>
              decide (it.defId ∈ mapKeys ((k, s) :: rest)))).map
              (fun it => (predUniverse it.generics).length)).sum := by
          rw [hfun]

/-- Under the invariant, the accumulator never exceeds `gatBound`. -/
theorem totalCard_le_gatBound (associated_items : List TraitItemRef) (m : GatMap)
    (hkeys : (mapKeys m).Nodup)
    (hinv : ∀ e ∈ m, e.2.Nodup ∧ ∀ p ∈ e.2, ∃ it, it ∈ associated_items ∧
      it.defId = e.1 ∧ p ∈ predUniverse it.generics) :
    totalCard m ≤ gatBound associated_items := by
  have h1 := totalCard_le_filtered associated_items m hkeys hinv
  have h2 := sum_map_filter_le (fun it => (predUniverse it.generics).length)
    (fun it => decide (it.defId ∈ mapKeys m)) associated_items
  unfold gatBound
  omega

/-- Unfolding an iteration from the back. -/
theorem gat_iter_succ (O : GatOracle) (associated_items : List TraitItemRef) :
    ∀ (n : Nat) (m : GatMap),
      gat_iter O associated_items (n + 1) m =
        (gat_pass O associated_items (gat_iter O associated_items n m)
          associated_items).1 := by
  intro n
  induction n with
  | zero => intro m; rfl
  | succ n ih =>
      intro m
      show gat_iter O associated_items (n + 1)
        (gat_pass O associated_items m associated_items).1 = _
      rw [ih]
      rfl

/-- The invariant holds along every iteration from the empty map. -/
theorem gat_iter_inv (O : GatOracle) (associated_items : List TraitItemRef) :
    ∀ (n : Nat) (m : GatMap),
      (mapKeys m).Nodup →
      (∀ e ∈ m, e.2.Nodup ∧ ∀ p ∈ e.2, ∃ it, it ∈ associated_items ∧ it.defId = e.1 ∧
        p ∈ predUniverse it.generics) →
      (mapKeys (gat_iter O associated_items n m)).Nodup ∧
      (∀ e ∈ gat_iter O associated_items n m, e.2.Nodup ∧
        ∀ p ∈ e.2, ∃ it, it ∈ associated_items ∧ it.defId = e.1 ∧
          p ∈ predUniverse it.generics) := by
  intro n
  induction n with
  | zero => intro m h1 h2; exact ⟨h1, h2⟩
  | succ n ih =>
      intro m h1 h2
      have hstep := gat_pass_preserves_inv O associated_items associated_items m
        (fun g hg => hg) h1 h2
      exact ih _ hstep.1 hstep.2

/-- As long as every pass reports a change, the accumulator's size
grows at least linearly. -/
theorem gat_iter_growth (O : GatOracle) (associated_items : List TraitItemRef) :
    ∀ n : Nat,
      (∀ i, i < n →
        (gat_pass O associated_items (gat_iter O associated_items i []) associated_items).2 =
          true) →
      n ≤ totalCard (gat_iter O associated_items n []) := by
  intro n
  induction n with
  | zero => intro _; exact Nat.zero_le _
  | succ n ih =>
      intro hflags
      have h1 : n ≤ totalCard (gat_iter O associated_items n []) :=
        ih (fun i hi => hflags i (Nat.lt_succ_of_lt hi))
      have h2 := gat_pass_flag_growth O associated_items associated_items
        (gat_iter O associated_items n []) (hflags n (Nat.lt_succ_self n))
      rw [gat_iter_succ]
      omega

/-- C3: the GAT fixpoint loop terminates on every finite trait.  A
pass only grows each GAT's accumulated set; the loop repeats only when
a pass strictly grew the accumulator; and since every candidate clause
lives in the finite universe determined by the trait's items, some
pass within `gatBound` iterations from the empty accumulator reports
no change, ending the loop. -/
theorem gat_fixpoint_terminates (O : GatOracle) (associated_items : List TraitItemRef) :
    (∀ (m : GatMap) (k : Nat) (p : Predicate),
        p ∈ gatMapGetD m k →
          p ∈ gatMapGetD (gat_pass O associated_items m associated_items).1 k) ∧
    (∀ m : GatMap, (gat_pass O associated_items m associated_items).2 = true →
        totalCard m < totalCard (gat_pass O associated_items m associated_items).1) ∧
    (∃ n, n ≤ gatBound associated_items ∧
        (gat_pass O associated_items (gat_iter O associated_items n [])
          associated_items).2 = false) := by
  refine ⟨fun m k p hp => gat_pass_getD_mono O associated_items associated_items m k p hp,
    fun m h => gat_pass_flag_growth O associated_items associated_items m h, ?_⟩
  by_contra hcon
  push_neg at hcon
  have hflags : ∀ i, i < gatBound associated_items + 1 →
      (gat_pass O associated_items (gat_iter O associated_items i [])
        associated_items).2 = true := by
    intro i hi
    have := hcon i (Nat.lt_succ_iff.mp hi)
    exact Bool.not_eq_false _ |>.mp this
  have hgrow := gat_iter_growth O associated_items (gatBound associated_items + 1) hflags
  have hinv := gat_iter_inv O associated_items (gatBound associated_items + 1) []
    (by simp [mapKeys]) (by simp)
  have hbound := totalCard_le_gatBound associated_items
    (gat_iter O associated_items (gatBound associated_items + 1) []) hinv.1 hinv.2
  omega

/-- C3 witness: on the concrete two-item trait, the first pass from
the empty accumulator reports a change and strictly grows it. -/
theorem gat_fixpoint_terminates_witness :
    totalCard [] <
      totalCard (gat_pass
        ⟨fun _ sig => sig, fun _ => ⟨[], RevealMode.userFacing, ConstnessMode.notConst⟩,
          fun _ _ _ _ => true, fun _ _ _ _ => true⟩
        [⟨1, AssocItemKind.typeItem, ⟨[], Ty.tyError⟩, [],
            ⟨[], [⟨100, 0, 50, GenericParamDefKind.lifetime⟩]⟩⟩,
          ⟨2, AssocItemKind.fnItem,
            ⟨[], Ty.projection 1 (Ty.argsCons (Ty.lifetimeArg (Region.reFree 7))
              (Ty.argsCons (Ty.tyParam 0 0) Ty.argsNil))⟩, [], ⟨[], []⟩⟩]
        []
        [⟨1, AssocItemKind.typeItem, ⟨[], Ty.tyError⟩, [],
            ⟨[], [⟨100, 0, 50, GenericParamDefKind.lifetime⟩]⟩⟩,
          ⟨2, AssocItemKind.fnItem,
            ⟨[], Ty.projection 1 (Ty.argsCons (Ty.lifetimeArg (Region.reFree 7))
              (Ty.argsCons (Ty.tyParam 0 0) Ty.argsNil))⟩, [], ⟨[], []⟩⟩]).1 :=
  (gat_fixpoint_terminates _ _).2.1 [] (by decide)

/-- The fixpoint loop preserves the accumulator invariant for any
fuel. -/
theorem gat_loop_inv (O : GatOracle) (associated_items : List TraitItemRef) :
    ∀ (fuel : Nat) (m : GatMap),
      (mapKeys m).Nodup →
      (∀ e ∈ m, e.2.Nodup ∧ ∀ p ∈ e.2, ∃ it, it ∈ associated_items ∧ it.defId = e.1 ∧
        p ∈ predUniverse it.generics) →
      (mapKeys (gat_loop O associated_items fuel m)).Nodup ∧
      (∀ e ∈ gat_loop O associated_items fuel m, e.2.Nodup ∧
        ∀ p ∈ e.2, ∃ it, it ∈ associated_items ∧ it.defId = e.1 ∧
          p ∈ predUniverse it.generics) := by
  intro fuel
  induction fuel with
  | zero => intro m h1 h2; exact ⟨h1, h2⟩
  | succ fuel ih =>
      intro m h1 h2
      have hstep := gat_pass_preserves_inv O associated_items associated_items m
        (fun g hg => hg) h1 h2
      have hunfold : gat_loop O associated_items (fuel + 1) m =
          (if (gat_pass O associated_items m associated_items).2 then
            gat_loop O associated_items fuel
              (gat_pass O associated_items m associated_items).1
          else (gat_pass O associated_items m associated_items).1) := rfl
      rw [hunfold]
      by_cases hflag : (gat_pass O associated_items m associated_items).2 = true
      · simp only [hflag, if_true]
        exact ih _ hstep.1 hstep.2
      · simp only [Bool.not_eq_true] at hflag
        simp only [hflag, Bool.false_eq_true, if_false]
        exact hstep

/-- Every diagnostic's GAT id is a key of the accumulator it was
produced from. -/
theorem check_gat_missing_bound_diags_gatId (O : GatOracle) (m : GatMap) :
    ∀ d ∈ check_gat_missing_bound_diags O m, d.gatId ∈ mapKeys m := by
  intro d hd
  rw [check_gat_missing_bound_diags, List.mem_filterMap] at hd
  obtain ⟨e, hem, hfe⟩ := hd
  by_cases hemp : (List.insertionSort predStringLE
      (e.2.filter (fun c => unprovableClause O e.1 c))).isEmpty = true
  · simp [hemp] at hfe
  · simp only [hemp, Bool.false_eq_true, if_false, Option.some.injEq, ite_false] at hfe
    rw [← hfe]
    exact List.mem_map_of_mem _ hem

/-- An absent key never gets a diagnostic. -/
theorem check_gat_missing_bound_diags_filter_nil (O : GatOracle) (m : GatMap) (k : Nat)
    (hk : k ∉ mapKeys m) :
    (check_gat_missing_bound_diags O m).filter (fun d => decide (d.gatId = k)) = [] := by
  rw [List.filter_eq_nil_iff]
  intro d hd
  have := check_gat_missing_bound_diags_gatId O m d hd
  simp only [decide_eq_true_eq]
  intro hdk
  rw [hdk] at this
  exact hk this

/-- The diagnostics associated with a present key, characterized: with
distinct keys, the GAT with accumulated set `s` gets no diagnostic
when every accumulated clause is provable, and otherwise exactly one,
listing all unprovable clauses in sorted order with a
machine-applicable suggestion. -/
theorem check_gat_missing_bound_diags_filter (O : GatOracle) :
    ∀ (m : GatMap), (mapKeys m).Nodup → ∀ (k : Nat) (s : List Predicate),
      gatMapGet m k = some s →
      (check_gat_missing_bound_diags O m).filter (fun d => decide (d.gatId = k)) =
        (if (List.insertionSort predStringLE
            (s.filter (fun c => unprovableClause O k c))).isEmpty
         then []
         else [⟨k, List.insertionSort predStringLE
            (s.filter (fun c => unprovableClause O k c)),
            Applicability.machineApplicable⟩]) := by
  intro m
  induction m with
  | nil => intro _ k s h; simp [gatMapGet] at h
  | cons e rest ih =>
      intro hkeys k s hget
      have hkeys2 : (mapKeys rest).Nodup := by
        simp only [mapKeys, List.map_cons, List.nodup_cons] at hkeys
        exact hkeys.2
      by_cases hek : e.1 = k
      · have hse : s = e.2 := by
          simp only [gatMapGet, if_pos hek] at hget
          cases hget
          rfl
        subst hse
        have hknotin : k ∉ mapKeys rest := by
          simp only [mapKeys, List.map_cons, List.nodup_cons] at hkeys
          rw [← hek]
          exact hkeys.1
        rw [check_gat_missing_bound_diags, List.filterMap_cons]
        by_cases hemp : (List.insertionSort predStringLE
            (e.2.filter (fun c => unprovableClause O e.1 c))).isEmpty = true
        · simp only [hemp, if_true, ite_true]
          rw [← check_gat_missing_bound_diags]
          rw [check_gat_missing_bound_diags_filter_nil O rest k hknotin]
          rw [hek] at hemp
          simp [hemp]
        · simp only [hemp, Bool.false_eq_true, if_false, ite_false]
          rw [List.filter_cons]
          have hc : decide ((⟨e.1, List.insertionSort predStringLE
              (e.2.filter (fun c => unprovableClause O e.1 c)),
              Applicability.machineApplicable⟩ : GatDiag).gatId = k) = true := by
            simp [hek]
          rw [hc]
          simp only [if_true, ite_true]
          rw [← check_gat_missing_bound_diags]
          rw [check_gat_missing_bound_diags_filter_nil O rest k hknotin]
          rw [hek] at hemp
          simp only [Bool.not_eq_true] at hemp
          simp [hemp, hek]
      · have hget2 : gatMapGet rest k = some s := by
          simp only [gatMapGet, if_neg hek] at hget
          exact hget
        rw [check_gat_missing_bound_diags, List.filterMap_cons]
        by_cases hemp : (List.insertionSort predStringLE
            (e.2.filter (fun c => unprovableClause O e.1 c))).isEmpty = true
        · simp only [hemp, if_true, ite_true]
          rw [← check_gat_missing_bound_diags]
          exact ih hkeys2 k s hget2
        · simp only [hemp, Bool.false_eq_true, if_false, ite_false]
          rw [List.filter_cons]
          have hc : decide ((⟨e.1, List.insertionSort predStringLE
              (e.2.filter (fun c => unprovableClause O e.1 c)),
              Applicability.machineApplicable⟩ : GatDiag).gatId = k) = false := by
            simp [hek]
          rw [hc]
          simp only [Bool.false_eq_true, if_false, ite_false]
          rw [← check_gat_missing_bound_diags]
          exact ih hkeys2 k s hget2

/-- C4: after the fixpoint, every accumulated bound of a GAT is
re-verified through `unprovableClause` — against the GAT's own
parameter environment (`paramEnvQuery` of the GAT itself) with an
empty assumed-well-formed set — and the checker emits no diagnostic
for a GAT whose bounds are all provable and exactly one diagnostic
otherwise, listing all of its unprovable bounds (a permutation of the
filtered set) in sorted order with a machine-applicable where-clause
suggestion. -/
theorem check_gat_where_clauses_one_diag_per_gat (O : GatOracle)
    (associated_items : List TraitItemRef) (k : Nat) (s : List Predicate)
    (h : gatMapGet (gat_loop O associated_items (gatBound associated_items + 1) []) k =
      some s) :
    ((check_gat_where_clauses O associated_items).filter (fun d => decide (d.gatId = k)) =
      (if (List.insertionSort predStringLE
          (s.filter (fun c => unprovableClause O k c))).isEmpty
       then []
       else [⟨k, List.insertionSort predStringLE
          (s.filter (fun c => unprovableClause O k c)),
          Applicability.machineApplicable⟩])) ∧
    List.Sorted predStringLE
      (List.insertionSort predStringLE (s.filter (fun c => unprovableClause O k c))) ∧
    (List.insertionSort predStringLE (s.filter (fun c => unprovableClause O k c))).Perm
      (s.filter (fun c => unprovableClause O k c)) := by
  have hinv := gat_loop_inv O associated_items (gatBound associated_items + 1) []
    (by simp [mapKeys]) (by simp)
  exact ⟨check_gat_missing_bound_diags_filter O _ hinv.1 k s h,
    List.sorted_insertionSort predStringLE _,
    List.perm_insertionSort predStringLE _⟩

/-- C4 witness: on the concrete two-item trait whose method-side
environment proves the clause but whose GAT-side declared environment
does not, the checker emits exactly one diagnostic for the GAT,
listing the missing bound with a machine-applicable suggestion. -/
theorem check_gat_where_clauses_one_diag_per_gat_witness :
    (check_gat_where_clauses
        ⟨fun _ sig => sig,
          fun d => if d = 2 then
              ⟨[Predicate.regionOutlives Region.reStatic Region.reStatic],
                RevealMode.userFacing, ConstnessMode.notConst⟩
            else ⟨[], RevealMode.userFacing, ConstnessMode.notConst⟩,
          fun pe _ _ _ => !pe.callerBounds.isEmpty,
          fun pe _ _ _ => !pe.callerBounds.isEmpty⟩
        [⟨1, AssocItemKind.typeItem, ⟨[], Ty.tyError⟩, [],
            ⟨[], [⟨100, 0, 50, GenericParamDefKind.lifetime⟩]⟩⟩,
          ⟨2, AssocItemKind.fnItem,
            ⟨[], Ty.projection 1 (Ty.argsCons (Ty.lifetimeArg (Region.reFree 7))
              (Ty.argsCons (Ty.tyParam 0 0) Ty.argsNil))⟩, [], ⟨[], []⟩⟩]).filter
      (fun d => decide (d.gatId = 1)) =
      [⟨1, [Predicate.typeOutlives (Ty.tyParam 0 0) (Region.reEarlyBound 100 0 50)],
        Applicability.machineApplicable⟩] :=
  ((check_gat_where_clauses_one_diag_per_gat
      ⟨fun _ sig => sig,
        fun d => if d = 2 then
            ⟨[Predicate.regionOutlives Region.reStatic Region.reStatic],
              RevealMode.userFacing, ConstnessMode.notConst⟩
          else ⟨[], RevealMode.userFacing, ConstnessMode.notConst⟩,
        fun pe _ _ _ => !pe.callerBounds.isEmpty,
        fun pe _ _ _ => !pe.callerBounds.isEmpty⟩
      [⟨1, AssocItemKind.typeItem, ⟨[], Ty.tyError⟩, [],
          ⟨[], [⟨100, 0, 50, GenericParamDefKind.lifetime⟩]⟩⟩,
        ⟨2, AssocItemKind.fnItem,
          ⟨[], Ty.projection 1 (Ty.argsCons (Ty.lifetimeArg (Region.reFree 7))
            (Ty.argsCons (Ty.tyParam 0 0) Ty.argsNil))⟩, [], ⟨[], []⟩⟩]
      1 [Predicate.typeOutlives (Ty.tyParam 0 0) (Region.reEarlyBound 100 0 50)]
      (by decide)).1).trans (by decide)

end Wfcheck
